import Mathlib

/-!
# DBConnectionPool: a shallow embedding of `src/DBConnectionPool.h`
and of the factory and the scoped transaction of `src/PostgresConnection.h`

The pool is embedded as explicit state passing.  A `shared_ptr<DBConnection>` is an
`Option Nat`: `none` is `nullptr`, `some p` points to the connection object `p` (the
number is the identity of the object, and `std::set` orders its elements by it).
Everything the pool asks of the outside (the factory, the validity probe, the reference
count of a pointer, the slot id stored in a connection object) is collected in a `World`
that is handed to each call.

Not modelled: the mutex (every operation is one atomic step) and the `_lastActivity`
time stamp written by `borrow` (wall-clock time, never read by the pool).
What the factory throws is a `Thrown`: an exception of the `std::exception` hierarchy,
which the `catch` clauses of `borrow` handle, or an object of any other type, which they
let pass.
-/

namespace DBConnectionsPool

/-- Exception objects, by the static type a `catch` clause of `borrow` can tell apart:
`std::runtime_error` (or a class derived from it) and any other `std::exception`. -/
inductive StdException where
  | runtime_error (what : String)
  | exception (what : String)
  deriving DecidableEq, Repr

/-- An object thrown by C++ code: an exception of the `std::exception` hierarchy, or an
object of a type outside it (`tag` tells such objects apart), which no
`catch (std::exception &)` clause catches. -/
inductive Thrown where
  | std (e : StdException)
  | other (tag : Nat)
  deriving DecidableEq, Repr

/-- Outcome of one call `_factory->create(connectionId)`: it returns a pointer
(possibly `nullptr`) or it throws. -/
inductive CreateResult where
  | returns (sqlConnection : Option Nat)
  | throws (e : Thrown)
  deriving DecidableEq, Repr

/-- The collaborators of the pool at the time of one call. -/
structure World where
  /-- `DBConnectionFactory::create`. -/
  create : Int → CreateResult
  /-- `DBConnection::getConnectionId` of the object pointed to. -/
  getConnectionId : Nat → Int
  /-- `DBConnection::connectionValid` (virtual) of the object pointed to. -/
  connectionValid : Nat → Bool
  /-- `shared_ptr::use_count` of the pointer stored in `_connectionBorrowed`. -/
  use_count : Nat → Nat

/-- `struct DBConnectionPoolStats`: the field called `_poolSize` holds the idle count. -/
structure DBConnectionPoolStats where
  _poolSize : Nat
  _borrowedSize : Nat
  deriving DecidableEq, Repr

/-- The data members of `DBConnectionPool<T>`: `_connectionPool` is the deque of idle
connections (front = head of the list), `_connectionBorrowed` the `std::set`, kept as the
list of its elements in iteration order. -/
structure DBConnectionPool where
  _poolSize : Nat
  _connectionPool : List (Option Nat)
  _connectionBorrowed : List Nat
  deriving DecidableEq, Repr

/-- `std::set::insert`: walk the elements in order, comparing with `<` only; an element
equivalent to the new one blocks the insertion. -/
def setInsert (x : Nat) : List Nat → List Nat
  | [] => [x]
  | y :: ys =>
    if x < y then x :: y :: ys
    else if y < x then y :: setInsert x ys
    else y :: ys

/-- `std::set::erase`, by iterator or by key. -/
def setErase (x : Nat) (s : List Nat) : List Nat := s.erase x

/-- The loop `while (_connectionPool.size() < _poolSize) push_back(create(lastConnectionId++))`
of the constructor.  The first argument is the number of iterations still to run,
`_poolSize - _connectionPool.size()`; the last one logs the arguments of `create`.
`lastConnectionId` is a C++ `int` and is counted here in `Int`: the two agree as long as
the counter stays below 2^31, beyond which the C++ increment has no defined value. -/
def fillPool (create : Int → CreateResult) :
    Nat → List (Option Nat) → Int → List Int → Except Thrown (List (Option Nat)) × List Int
  | 0, pool, _, log => (.ok pool, log)
  | n + 1, pool, lastConnectionId, log =>
    match create lastConnectionId with
    | .throws e => (.error e, log ++ [lastConnectionId])
    | .returns sqlConnection =>
      fillPool create n (pool ++ [sqlConnection]) (lastConnectionId + 1) (log ++ [lastConnectionId])

/-- What the constructor does: the pool it builds (or the exception that leaves it) and
the slot ids `create` was called with, in call order. -/
structure NewOutcome where
  result : Except Thrown DBConnectionPool
  created : List Int

/-- The constructor `DBConnectionPool(poolSize, factory)`. -/
def DBConnectionPool.new (poolSize : Nat) (create : Int → CreateResult) : NewOutcome :=
  let r := fillPool create (poolSize - ([] : List (Option Nat)).length) [] 0 []
  { result := r.1.map fun pool =>
      { _poolSize := poolSize, _connectionPool := pool, _connectionBorrowed := [] }
    created := r.2 }

/-- What one call of `borrow` does: the value returned or the exception thrown, the pool
afterwards, and the slot ids `create` was called with. -/
structure BorrowOutcome where
  result : Except Thrown Nat
  pool : DBConnectionPool
  created : List Int

/-- The method `borrow()`. -/
def borrow (w : World) (s : DBConnectionPool) : BorrowOutcome :=
  match s._connectionPool with
  | [] =>
    -- the for loop stops at the first element with use_count() == 1
    match s._connectionBorrowed.find? (fun it => w.use_count it == 1) with
    | some it =>
      let connectionId := w.getConnectionId it
      match w.create connectionId with
      | .returns (some sqlConnection) =>
        { result := .ok sqlConnection
          pool := { s with _connectionBorrowed := setInsert sqlConnection (setErase it s._connectionBorrowed) }
          created := [connectionId] }
      | .returns none =>
        -- runtime_error("sqlConnection is null") is caught by catch (std::exception &)
        { result := .error (.std (.runtime_error "exception")), pool := s
          created := [connectionId] }
      | .throws (.std _) =>
        { result := .error (.std (.runtime_error "exception")), pool := s
          created := [connectionId] }
      | .throws (.other tag) =>
        -- not a std::exception: the catch clause does not apply, the object passes
        { result := .error (.other tag), pool := s, created := [connectionId] }
    | none =>
      { result := .error (.std (.runtime_error "No connection available")), pool := s
        created := [] }
  | sqlConnection :: rest =>
    -- front() and pop_front()
    match sqlConnection with
    | none =>
      { result := .error (.std (.runtime_error "sqlConnection is null"))
        pool := { s with _connectionPool := rest }
        created := [] }
    | some c =>
      if w.connectionValid c then
        { result := .ok c
          pool := { s with _connectionPool := rest, _connectionBorrowed := setInsert c s._connectionBorrowed }
          created := [] }
      else
        let connectionId := w.getConnectionId c
        match w.create connectionId with
        | .returns (some r) =>
          { result := .ok r
            pool := { s with _connectionPool := rest, _connectionBorrowed := setInsert r s._connectionBorrowed }
            created := [connectionId] }
        | .returns none =>
          -- sqlConnection has been overwritten with nullptr before the throw,
          -- so catch (std::runtime_error &) pushes nullptr
          { result := .error (.std (.runtime_error "sqlConnection is null"))
            pool := { s with _connectionPool := rest ++ [none] }
            created := [connectionId] }
        | .throws (.std (.runtime_error what)) =>
          -- create threw before the assignment: sqlConnection is still the old pointer
          { result := .error (.std (.runtime_error what))
            pool := { s with _connectionPool := rest ++ [some c] }
            created := [connectionId] }
        | .throws (.std (.exception _)) =>
          -- throw e with e of static type std::exception copies the base object only
          { result := .error (.std (.exception "std::exception"))
            pool := { s with _connectionPool := rest ++ [some c] }
            created := [connectionId] }
        | .throws (.other tag) =>
          -- neither catch clause applies: no push_back, the popped connection is dropped
          { result := .error (.other tag)
            pool := { s with _connectionPool := rest }
            created := [connectionId] }

/-- What one call of `unborrow` does. -/
structure UnborrowOutcome where
  result : Except StdException Unit
  pool : DBConnectionPool

/-- The method `unborrow(sqlConnection)`. -/
def unborrow (sqlConnection : Option Nat) (s : DBConnectionPool) : UnborrowOutcome :=
  match sqlConnection with
  | none => { result := .error (.runtime_error "sqlConnection is null"), pool := s }
  | some c =>
    { result := .ok ()
      pool := { s with _connectionPool := s._connectionPool ++ [some c]
                       _connectionBorrowed := setErase c s._connectionBorrowed } }

/-- The method `get_stats()`. -/
def get_stats (s : DBConnectionPool) : DBConnectionPoolStats :=
  { _poolSize := s._connectionPool.length, _borrowedSize := s._connectionBorrowed.length }

/-! ## Sequences of calls -/

/-- One call on the pool by some client, together with the collaborators it meets. -/
inductive Call where
  | borrow (w : World)
  | unborrow (sqlConnection : Option Nat)
  | get_stats

/-- The pool after one call. -/
def step (s : DBConnectionPool) : Call → DBConnectionPool
  | .borrow w => (borrow w s).pool
  | .unborrow sqlConnection => (unborrow sqlConnection s).pool
  | .get_stats => s

/-- The pool after a sequence of calls, each one an atomic step. -/
def exec (s : DBConnectionPool) (calls : List Call) : DBConnectionPool :=
  calls.foldl step s

/-- What a client can see of the traffic of connections: a `borrow` that returned `c`,
an `unborrow` that was called with `c`. -/
inductive Event where
  | returned (c : Nat)
  | unborrowed (c : Nat)
  deriving DecidableEq, Repr

/-- The event of one call (none for a failed `borrow`, `unborrow(nullptr)`, `get_stats`). -/
def observe (s : DBConnectionPool) : Call → List Event
  | .borrow w =>
    match (borrow w s).result with
    | .ok c => [.returned c]
    | .error _ => []
  | .unborrow (some c) => [.unborrowed c]
  | .unborrow none => []
  | .get_stats => []

/-- The events of a sequence of calls, in order. -/
def events : DBConnectionPool → List Call → List Event
  | _, [] => []
  | s, call :: calls => observe s call ++ events (step s call) calls

/-- The connections the factory handed to `borrow` during one call. -/
def produced (w : World) (s : DBConnectionPool) : List Nat :=
  (borrow w s).created.filterMap fun connectionId =>
    match w.create connectionId with
    | .returns sqlConnection => sqlConnection
    | .throws _ => none

/-- The non-null entries of the idle deque. -/
def idleConnections (s : DBConnectionPool) : List Nat :=
  s._connectionPool.filterMap id

/-- A sequence of calls that keeps to the protocol.  `known` lists the connections created
so far.  The factory keeps its contract (what it returns is a new connection, not one
created before) and `unborrow` is only called with a connection that is borrowed at that
time (or with `nullptr`, which is refused). -/
def Legal : List Nat → DBConnectionPool → List Call → Prop
  | _, _, [] => True
  | known, s, .borrow w :: calls =>
    (∀ r ∈ produced w s, r ∉ known) ∧ Legal (known ++ produced w s) (borrow w s).pool calls
  | known, s, .unborrow sqlConnection :: calls =>
    (∀ c, sqlConnection = some c → c ∈ s._connectionBorrowed) ∧
      Legal known (unborrow sqlConnection s).pool calls
  | known, s, .get_stats :: calls => Legal known s calls

/-- The weaker protocol: as `Legal`, but `unborrow` may be called with any connection that
some earlier `borrow` returned (`returned` lists them), borrowed at that time or not. -/
def LegalReturned : List Nat → List Nat → DBConnectionPool → List Call → Prop
  | _, _, _, [] => True
  | known, returned, s, .borrow w :: calls =>
    (∀ r ∈ produced w s, r ∉ known) ∧
      LegalReturned (known ++ produced w s)
        (match (borrow w s).result with
          | .ok c => returned ++ [c]
          | .error _ => returned)
        (borrow w s).pool calls
  | known, returned, s, .unborrow sqlConnection :: calls =>
    (∃ c, sqlConnection = some c ∧ c ∈ returned) ∧
      LegalReturned known returned (unborrow sqlConnection s).pool calls
  | known, returned, s, .get_stats :: calls => LegalReturned known returned s calls

/-- The invariant of the pool state. -/
structure WellFormed (s : DBConnectionPool) : Prop where
  size_le : s._connectionPool.length + s._connectionBorrowed.length ≤ s._poolSize
  idle_nodup : (idleConnections s).Nodup
  borrowed_nodup : s._connectionBorrowed.Nodup
  disjoint : ∀ c ∈ s._connectionBorrowed, some c ∉ s._connectionPool

/-- Consecutive calls of `borrow`, one per world: the results in call order and the pool
at the end. -/
def borrowAll : List World → DBConnectionPool → List (Except Thrown Nat) × DBConnectionPool
  | [], s => ([], s)
  | w :: ws, s =>
    let r := borrowAll ws (borrow w s).pool
    ((borrow w s).result :: r.1, r.2)

/-- A run without replacement: every `borrow` succeeds and does not call the factory, every
`unborrow` hands back a connection that is borrowed at that time. -/
def Plain : DBConnectionPool → List Call → Prop
  | _, [] => True
  | s, .borrow w :: calls =>
    (∃ c, (borrow w s).result = .ok c) ∧ (borrow w s).created = [] ∧ Plain (borrow w s).pool calls
  | s, .unborrow sqlConnection :: calls =>
    (∃ c, sqlConnection = some c ∧ c ∈ s._connectionBorrowed) ∧
      Plain (unborrow sqlConnection s).pool calls
  | s, .get_stats :: calls => Plain s calls

/-- Number of `borrow` calls in a sequence. -/
def countBorrow : List Call → Nat
  | [] => 0
  | .borrow _ :: calls => countBorrow calls + 1
  | _ :: calls => countBorrow calls

/-- Number of `unborrow` calls in a sequence. -/
def countUnborrow : List Call → Nat
  | [] => 0
  | .unborrow _ :: calls => countUnborrow calls + 1
  | _ :: calls => countUnborrow calls

/-- The invariant together with the bookkeeping of `Legal`: every connection of the pool
is one of the connections created so far. -/
structure Tracked (known : List Nat) (s : DBConnectionPool) extends WellFormed s : Prop where
  idle_known : ∀ c, some c ∈ s._connectionPool → c ∈ known
  borrowed_known : ∀ c ∈ s._connectionBorrowed, c ∈ known

/-- Whether connection `c` is out with a client after the events `evs`: some `borrow`
returned it and no `unborrow` was called with it since. -/
def heldAfter (c : Nat) (evs : List Event) : Bool :=
  evs.foldl
    (fun held e =>
      match e with
      | .returned d => held || d == c
      | .unborrowed d => held && d != c)
    false

/-- The method `PostgresConnectionFactory::create(connectionId)`.  `connect` stands for the
two `make_shared` calls (the `pqxx::connection` constructor may throw; on success the
number is the new `PostgresConnection` object), `connectionValid` for the first probe of
the new object.  The `catch` clause rethrows what it caught. -/
def PostgresConnectionFactory.create (connect : Int → Except Thrown Nat)
    (connectionValid : Nat → Bool) (connectionId : Int) : CreateResult :=
  match connect connectionId with
  | .error e => .throws e
  | .ok postgresConnection =>
    if connectionValid postgresConnection then .returns (some postgresConnection)
    else .returns none

/-- What a `PostgresConnTrans` does with its transaction and its pool, in call order. -/
inductive TransAction where
  | commit
  | abort
  | unborrow (connection : Option Nat)
  deriving DecidableEq, Repr

/-- The data members `_abort` and `connection` of `PostgresConnTrans` (the pool is passed
along explicitly, `transaction` is the unit of work opened by the constructor). -/
structure PostgresConnTrans where
  _abort : Bool
  connection : Option Nat
  deriving DecidableEq, Repr

/-- What the constructor of `PostgresConnTrans` does: the object built or the exception
that leaves it, the pool afterwards, the slot ids `create` was called with, and the calls
made besides `borrow`. -/
structure ConnTransOutcome where
  result : Except Thrown PostgresConnTrans
  pool : DBConnectionPool
  created : List Int
  actions : List TransAction

/-- The constructor `PostgresConnTrans(connectionsPool, work)`.  `openTransaction c work`
is the outcome of building the `pqxx::work` (or `pqxx::nontransaction`) on connection `c`
(pqxx throws exceptions of the `std::exception` hierarchy).  What `borrow` throws leaves
the constructor as it is; an exception of the transaction is rethrown after
`unborrow(connection)`. -/
def PostgresConnTrans.new (w : World) (openTransaction : Nat → Bool → Except StdException Unit)
    (work : Bool) (s : DBConnectionPool) : ConnTransOutcome :=
  match (borrow w s).result with
  | .error e =>
    { result := .error e, pool := (borrow w s).pool, created := (borrow w s).created
      actions := [] }
  | .ok connection =>
    match openTransaction connection work with
    | .ok _ =>
      { result := .ok { _abort := false, connection := some connection }
        pool := (borrow w s).pool, created := (borrow w s).created, actions := [] }
    | .error e =>
      { result := .error (.std e)
        pool := (unborrow (some connection) (borrow w s).pool).pool
        created := (borrow w s).created
        actions := [.unborrow (some connection)] }

/-- Slot id stored in the connection object `c` of the examples: objects `100 + i` and
`200 + i` both belong to slot `i`. -/
def slotOf (c : Nat) : Int := ((c % 100 : Nat) : Int)

/-- A factory that succeeds on each call: slot `i` gets the new object `100 + i`. -/
def factoryOk (connectionId : Int) : CreateResult := .returns (some (100 + connectionId.toNat))

/-- All probes report valid, every borrower keeps its handle, the factory creates
object `200 + i` for slot `i`. -/
def healthy : World :=
  { create := fun connectionId => .returns (some (200 + connectionId.toNat))
    getConnectionId := slotOf
    connectionValid := fun _ => true
    use_count := fun _ => 2 }

/-- All probes report invalid and the factory creates object `200 + i` for slot `i`. -/
def brokenReplaced : World := { healthy with connectionValid := fun _ => false }

/-- All probes report invalid and the factory returns `nullptr`. -/
def brokenNull : World :=
  { healthy with connectionValid := fun _ => false, create := fun _ => .returns none }

/-- All probes report invalid and the factory throws an object that is no
`std::exception`. -/
def brokenThrowsOther : World :=
  { healthy with connectionValid := fun _ => false, create := fun _ => .throws (.other 7) }

/-- All probes report invalid and the factory throws. -/
def brokenThrows : World :=
  { healthy with
    connectionValid := fun _ => false
    create := fun _ => .throws (.std (.runtime_error "connection refused")) }

/-- Every borrower has dropped its handle; the factory creates object `200 + i` for slot `i`. -/
def abandoned : World := { healthy with use_count := fun _ => 1 }

/-- The pool of size 1 built by `factoryOk`. -/
def pool1 : DBConnectionPool :=
  { _poolSize := 1, _connectionPool := [some 100], _connectionBorrowed := [] }

/-- The pool of size 2 built by `factoryOk`. -/
def pool2 : DBConnectionPool :=
  { _poolSize := 2, _connectionPool := [some 100, some 101], _connectionBorrowed := [] }

/-- A pool of size 2 with both connections borrowed. -/
def pool2Borrowed : DBConnectionPool :=
  { _poolSize := 2, _connectionPool := [], _connectionBorrowed := [100, 101] }

/-- The calls of a client that returns connection 100 twice after one `borrow`. -/
def doubleUnborrow : List Call :=
  [.borrow healthy, .unborrow (some 100), .unborrow (some 100)]

/-- The calls of `doubleUnborrow`, followed by one more call of `borrow`. -/
def doubleUnborrowBorrow : List Call :=
  [.borrow healthy, .unborrow (some 100), .unborrow (some 100), .borrow healthy]

/-- The calls of `doubleUnborrow`, followed by two more calls of `borrow`. -/
def doubleUnborrowBorrowTwice : List Call :=
  [.borrow healthy, .unborrow (some 100), .unborrow (some 100), .borrow healthy, .borrow healthy]

/-- A sequence of calls that keeps to the protocol on `pool2`: connection 100 is borrowed
and returned, connection 101 is found invalid and replaced by 201, connection 100 is
borrowed again. -/
def sampleCalls : List Call :=
  [.borrow healthy, .get_stats, .unborrow (some 100), .borrow brokenReplaced, .borrow healthy]

/-- An interleaving of three calls of `borrow` and two of `unborrow` on `pool2`. -/
def plainCalls : List Call :=
  [.borrow healthy, .borrow healthy, .unborrow (some 100), .get_stats, .borrow healthy,
    .unborrow (some 101)]

/-- A Postgres factory that connects (new object `100 + i` for slot `i`) but whose new
connections fail their first probe. -/
def postgresProbeFails : Int → CreateResult :=
  PostgresConnectionFactory.create (fun connectionId => .ok (100 + connectionId.toNat))
    (fun _ => false)

/-- A factory that creates connection 100 for slot 0 and throws for every other slot. -/
def factoryThrowsLater (connectionId : Int) : CreateResult :=
  if connectionId = 0 then .returns (some 100)
  else .throws (.std (.runtime_error "connection refused"))

/-- Every borrower has dropped its handle and the factory throws. -/
def abandonedThrows : World :=
  { healthy with
    use_count := fun _ => 1
    create := fun _ => .throws (.std (.runtime_error "connection refused")) }

/-- The unit of work cannot be opened. -/
def openFails (_ : Nat) (_ : Bool) : Except StdException Unit :=
  .error (.runtime_error "cannot start transaction")

theorem mem_setInsert (a x : Nat) (s : List Nat) : a ∈ setInsert x s ↔ a = x ∨ a ∈ s := by
  induction s with
  | nil => simp [setInsert]
  | cons y ys ih =>
    unfold setInsert
    split
    · simp
    · split
      · simp [ih]; tauto
      · have : x = y := by omega
        subst this; simp

theorem length_setInsert (x : Nat) (s : List Nat) (h : x ∉ s) :
    (setInsert x s).length = s.length + 1 := by
  induction s with
  | nil => simp [setInsert]
  | cons y ys ih =>
    simp only [List.mem_cons, not_or] at h
    unfold setInsert
    split
    · simp
    · split
      · simp [ih h.2]
      · omega

theorem nodup_setInsert (x : Nat) (s : List Nat) (h : x ∉ s) (hs : s.Nodup) :
    (setInsert x s).Nodup := by
  induction s with
  | nil => simp [setInsert]
  | cons y ys ih =>
    simp only [List.mem_cons, not_or] at h
    rw [List.nodup_cons] at hs
    unfold setInsert
    split
    · simp [hs.1, hs.2, h.1, h.2]
    · split
      · rw [List.nodup_cons]
        refine ⟨?_, ih h.2 hs.2⟩
        rw [mem_setInsert]
        rintro (h1 | h1)
        · exact h.1 h1.symm
        · exact hs.1 h1
      · omega

theorem fillPool_ok (create : Int → CreateResult) (conn : Int → Nat) (n : Nat) :
    ∀ (pool : List (Option Nat)) (k : Int) (log : List Int),
      (∀ j : Nat, j < n → create (k + j) = .returns (some (conn (k + j)))) →
      fillPool create n pool k log =
        (.ok (pool ++ (List.range n).map fun (j : Nat) => some (conn (k + (j : Int)))),
          log ++ (List.range n).map fun (j : Nat) => k + (j : Int)) := by
  induction n with
  | zero => intro pool k log _; simp [fillPool]
  | succ n ih =>
    intro pool k log h
    have h0 := h 0 (Nat.succ_pos n)
    simp only [Nat.cast_zero, add_zero] at h0
    have hstep : ∀ j : Nat, j < n → create (k + 1 + j) = .returns (some (conn (k + 1 + j))) := by
      intro j hj
      have := h (j + 1) (Nat.succ_lt_succ hj)
      have e : k + ((j + 1 : Nat) : Int) = k + 1 + j := by push_cast; ring
      rw [e] at this
      exact this
    rw [fillPool, h0]
    simp only
    rw [ih _ _ _ hstep, List.range_succ_eq_map]
    simp only [List.map_cons, List.map_map, List.append_assoc, List.singleton_append,
      Nat.cast_zero, add_zero]
    have e : ∀ j : Nat, k + ((j + 1 : Nat) : Int) = k + 1 + j := by
      intro j; push_cast; ring
    have e1 : ((fun (j : Nat) => some (conn (k + (j : Int)))) ∘ Nat.succ) =
        fun (j : Nat) => some (conn (k + 1 + (j : Int))) := by
      funext j; simp only [Function.comp, Nat.succ_eq_add_one, e]
    have e2 : ((fun (j : Nat) => k + (j : Int)) ∘ Nat.succ) = fun (j : Nat) => k + 1 + (j : Int) := by
      funext j; simp only [Function.comp, Nat.succ_eq_add_one, e]
    rw [e1, e2]

/-! ## The branches of borrow -/

theorem borrow_front_null (w : World) (s : DBConnectionPool) (rest : List (Option Nat))
    (hfront : s._connectionPool = none :: rest) :
    borrow w s =
      { result := .error (.std (.runtime_error "sqlConnection is null"))
        pool := { s with _connectionPool := rest }
        created := [] } := by
  unfold borrow
  rw [hfront]

theorem borrow_front_valid (w : World) (s : DBConnectionPool) (c : Nat)
    (rest : List (Option Nat)) (hfront : s._connectionPool = some c :: rest)
    (hvalid : w.connectionValid c = true) :
    borrow w s =
      { result := .ok c
        pool := { s with _connectionPool := rest
                         _connectionBorrowed := setInsert c s._connectionBorrowed }
        created := [] } := by
  unfold borrow
  rw [hfront]
  simp only [hvalid, if_true]

theorem borrow_front_invalid (w : World) (s : DBConnectionPool) (c : Nat)
    (rest : List (Option Nat)) (hfront : s._connectionPool = some c :: rest)
    (hinvalid : w.connectionValid c = false) :
    borrow w s =
      match w.create (w.getConnectionId c) with
      | .returns (some r) =>
        { result := .ok r
          pool := { s with _connectionPool := rest
                           _connectionBorrowed := setInsert r s._connectionBorrowed }
          created := [w.getConnectionId c] }
      | .returns none =>
        { result := .error (.std (.runtime_error "sqlConnection is null"))
          pool := { s with _connectionPool := rest ++ [none] }
          created := [w.getConnectionId c] }
      | .throws (.std (.runtime_error what)) =>
        { result := .error (.std (.runtime_error what))
          pool := { s with _connectionPool := rest ++ [some c] }
          created := [w.getConnectionId c] }
      | .throws (.std (.exception _)) =>
        { result := .error (.std (.exception "std::exception"))
          pool := { s with _connectionPool := rest ++ [some c] }
          created := [w.getConnectionId c] }
      | .throws (.other tag) =>
        { result := .error (.other tag)
          pool := { s with _connectionPool := rest }
          created := [w.getConnectionId c] } := by
  unfold borrow
  rw [hfront]
  simp only [hinvalid, Bool.false_eq_true, if_false]

theorem borrow_exhausted (w : World) (s : DBConnectionPool) (hidle : s._connectionPool = [])
    (hnone : s._connectionBorrowed.find? (fun it => w.use_count it == 1) = none) :
    borrow w s =
      { result := .error (.std (.runtime_error "No connection available")), pool := s
        created := [] } := by
  unfold borrow
  rw [hidle]
  simp only [hnone]

theorem borrow_abandoned (w : World) (s : DBConnectionPool) (it : Nat)
    (hidle : s._connectionPool = [])
    (hsome : s._connectionBorrowed.find? (fun it => w.use_count it == 1) = some it) :
    borrow w s =
      match w.create (w.getConnectionId it) with
      | .returns (some sqlConnection) =>
        { result := .ok sqlConnection
          pool := { s with
            _connectionBorrowed := setInsert sqlConnection (setErase it s._connectionBorrowed) }
          created := [w.getConnectionId it] }
      | .returns none =>
        { result := .error (.std (.runtime_error "exception")), pool := s
          created := [w.getConnectionId it] }
      | .throws (.std _) =>
        { result := .error (.std (.runtime_error "exception")), pool := s
          created := [w.getConnectionId it] }
      | .throws (.other tag) =>
        { result := .error (.other tag), pool := s, created := [w.getConnectionId it] } := by
  unfold borrow
  rw [hidle]
  simp only [hsome]

/-! ## The constructor -/

theorem constructor_result (poolSize : Nat) (create : Int → CreateResult)
    (conn : Int → Nat) (hok : ∀ j : Nat, j < poolSize → create j = .returns (some (conn j))) :
    (DBConnectionPool.new poolSize create).result = .ok
      { _poolSize := poolSize
        _connectionPool := (List.range poolSize).map fun (j : Nat) => some (conn j)
        _connectionBorrowed := [] } := by
  have h := fillPool_ok create conn poolSize [] 0 []
    (by intro j hj; simpa using hok j hj)
  simp only [zero_add, List.nil_append] at h
  simp [DBConnectionPool.new, h, Except.map]

/-- C10: when the factory succeeds for each of the slot ids below `poolSize` (`conn j` is
the connection it returns for slot `j`), the constructor calls `create` exactly `poolSize`
times, with 0, 1, ..., poolSize-1 in this order; the pool it builds has these connections
as its idle deque in creation order (slot 0 at the front) and an empty borrowed set, and
`get_stats` reports `poolSize` idle and 0 borrowed connections. -/
theorem new_creates_every_slot (poolSize : Nat) (create : Int → CreateResult) (conn : Int → Nat)
    (hok : ∀ j : Nat, j < poolSize → create j = .returns (some (conn j))) :
    (DBConnectionPool.new poolSize create).created
        = (List.range poolSize).map (fun (j : Nat) => (j : Int)) ∧
      (DBConnectionPool.new poolSize create).created.length = poolSize ∧
      (DBConnectionPool.new poolSize create).result = .ok
        { _poolSize := poolSize
          _connectionPool := (List.range poolSize).map fun (j : Nat) => some (conn j)
          _connectionBorrowed := [] } ∧
      ∀ s, (DBConnectionPool.new poolSize create).result = .ok s →
        get_stats s = { _poolSize := poolSize, _borrowedSize := 0 } := by
  have h := fillPool_ok create conn poolSize [] 0 []
    (by intro j hj; simpa using hok j hj)
  simp only [zero_add, List.nil_append] at h
  have hres := constructor_result poolSize create conn hok
  refine ⟨?_, ?_, hres, ?_⟩
  · simp [DBConnectionPool.new, h]
  · simp [DBConnectionPool.new, h]
  · intro s hs
    rw [hres] at hs
    injection hs with hs
    subst hs
    simp [get_stats]

/-- C10, at pool size 3 with the factory `factoryOk`. -/
theorem new_creates_every_slot_witness :
    (DBConnectionPool.new 3 factoryOk).created = [0, 1, 2] ∧
      (DBConnectionPool.new 3 factoryOk).result = .ok
        { _poolSize := 3, _connectionPool := [some 100, some 101, some 102]
          _connectionBorrowed := [] } :=
  have h := new_creates_every_slot 3 factoryOk (fun j => 100 + j.toNat) (fun _ _ => rfl)
  ⟨h.1, h.2.2.1⟩

/-! ## One call of borrow -/

/-- C9, as amended: when the front idle connection `c` is probed invalid and the factory
does not deliver a replacement, by throwing an exception of the `std::exception`
hierarchy or by returning `nullptr`, `borrow` throws and `get_stats` reports the same idle
and borrowed counts as before the call. -/
theorem borrow_failed_replacement_keeps_stats (w : World) (s : DBConnectionPool) (c : Nat)
    (rest : List (Option Nat)) (hfront : s._connectionPool = some c :: rest)
    (hinvalid : w.connectionValid c = false)
    (hfail : ∀ r, w.create (w.getConnectionId c) ≠ .returns (some r))
    (hstd : ∀ tag, w.create (w.getConnectionId c) ≠ .throws (.other tag)) :
    (∃ e, (borrow w s).result = .error e) ∧ get_stats (borrow w s).pool = get_stats s := by
  rw [borrow_front_invalid w s c rest hfront hinvalid]
  split
  · next r hr => exact absurd hr (hfail r)
  · exact ⟨⟨_, rfl⟩, by simp [get_stats, hfront]⟩
  · exact ⟨⟨_, rfl⟩, by simp [get_stats, hfront]⟩
  · exact ⟨⟨_, rfl⟩, by simp [get_stats, hfront]⟩
  · next tag hc => exact absurd hc (hstd tag)

/-- C9, as amended, on the pool of size 1: after the failed borrow (the factory throws a
`std::runtime_error`, the factory returns `nullptr`) the idle count is 1 and the borrowed
count 0. -/
theorem borrow_failed_replacement_keeps_stats_witness :
    get_stats (borrow brokenThrows pool1).pool = { _poolSize := 1, _borrowedSize := 0 } ∧
      get_stats (borrow brokenNull pool1).pool = { _poolSize := 1, _borrowedSize := 0 } :=
  ⟨(borrow_failed_replacement_keeps_stats brokenThrows pool1 100 [] rfl rfl
      (by intro r h; cases h) (by intro tag h; cases h)).2,
    (borrow_failed_replacement_keeps_stats brokenNull pool1 100 [] rfl rfl
      (by intro r h; cases h) (by intro tag h; cases h)).2⟩

/-- C9, counterexample: on the pool of size 2 whose front connection 100 is probed
invalid, with a factory that throws an object that is no `std::exception`, neither
`catch` clause of `borrow` applies: `borrow` fails with that object, connection 100 is
not pushed back, and `get_stats` reports 1 idle connection where it reported 2 before
the call. -/
theorem foreign_throw_drops_idle_count :
    pool2._connectionPool = [some 100, some 101] ∧
      brokenThrowsOther.connectionValid 100 = false ∧
      brokenThrowsOther.create (brokenThrowsOther.getConnectionId 100) = .throws (.other 7) ∧
      (borrow brokenThrowsOther pool2).result = .error (.other 7) ∧
      get_stats pool2 = { _poolSize := 2, _borrowedSize := 0 } ∧
      get_stats (borrow brokenThrowsOther pool2).pool = { _poolSize := 1, _borrowedSize := 0 } :=
  ⟨rfl, rfl, rfl, rfl, rfl, rfl⟩

/-- C8: when the front idle connection `c` is probed invalid, `borrow` calls `create`
exactly once, with the slot id of `c`; when the factory returns a connection `r`, `borrow`
returns `r` and `r` is in the borrowed set afterwards; and in a well-formed pool, with `r`
a new connection (none of the idle ones), `r` is not `c` and `c` is neither in the idle
deque nor in the borrowed set afterwards. -/
theorem borrow_replaces_invalid_front (w : World) (s : DBConnectionPool) (c : Nat)
    (rest : List (Option Nat)) (hfront : s._connectionPool = some c :: rest)
    (hinvalid : w.connectionValid c = false) :
    (borrow w s).created = [w.getConnectionId c] ∧
      ∀ r, w.create (w.getConnectionId c) = .returns (some r) →
        (borrow w s).result = .ok r ∧ r ∈ (borrow w s).pool._connectionBorrowed ∧
        (WellFormed s → some r ∉ s._connectionPool →
          r ≠ c ∧ some c ∉ (borrow w s).pool._connectionPool ∧
            c ∉ (borrow w s).pool._connectionBorrowed) := by
  constructor
  · unfold borrow
    rw [hfront]
    simp only [hinvalid, Bool.false_eq_true, if_false]
    split <;> rfl
  · intro r hr
    have hb : borrow w s =
        { result := .ok r
          pool := { s with _connectionPool := rest
                           _connectionBorrowed := setInsert r s._connectionBorrowed }
          created := [w.getConnectionId c] } := by
      unfold borrow
      rw [hfront]
      simp only [hinvalid, Bool.false_eq_true, if_false, hr]
    rw [hb]
    refine ⟨rfl, ?_, ?_⟩
    · simp [mem_setInsert]
    · intro hwf hfresh
      have hrc : r ≠ c := by
        rintro rfl
        exact hfresh (by rw [hfront]; simp)
      refine ⟨hrc, ?_, ?_⟩
      · have hnd := hwf.idle_nodup
        simp only [idleConnections, hfront, List.filterMap_cons, id, List.nodup_cons,
          List.mem_filterMap] at hnd
        intro hmem
        exact hnd.1 ⟨some c, hmem, rfl⟩
      · simp only [mem_setInsert, not_or]
        refine ⟨fun h => hrc h.symm, fun hmem => ?_⟩
        exact hwf.disjoint c hmem (by rw [hfront]; simp)

/-- C8, on the pool of size 1: the invalid connection 100 of slot 0 is replaced by the new
connection 200, created for slot 0. -/
theorem borrow_replaces_invalid_front_witness :
    (borrow brokenReplaced pool1).created = [0] ∧
      (borrow brokenReplaced pool1).result = .ok 200 ∧
      200 ∈ (borrow brokenReplaced pool1).pool._connectionBorrowed ∧
      some 100 ∉ (borrow brokenReplaced pool1).pool._connectionPool ∧
      100 ∉ (borrow brokenReplaced pool1).pool._connectionBorrowed :=
  have h := borrow_replaces_invalid_front brokenReplaced pool1 100 [] rfl rfl
  have h2 := h.2 200 rfl
  have h3 := h2.2.2 ⟨by decide, by decide, by decide, by decide⟩ (by decide)
  ⟨h.1, h2.1, h2.2.1, h3.2.1, h3.2.2⟩

/-- C4: with an empty idle deque and an abandoned connection `a` in the borrowed set,
`borrow` does not fail with "No connection available": it calls `create` once, with the
slot id of the first abandoned connection `it` in iteration order of the set, and when
the factory returns a connection `r`, it erases `it`, inserts `r` and returns `r`; the
idle deque stays empty and, `r` being a new connection (not already borrowed), both
counts of `get_stats` are unchanged. -/
theorem borrow_recovers_abandoned (w : World) (s : DBConnectionPool) (a : Nat)
    (hidle : s._connectionPool = []) (ha : a ∈ s._connectionBorrowed)
    (hab : w.use_count a = 1) :
    ∃ it before after,
      s._connectionBorrowed = before ++ it :: after ∧ w.use_count it = 1 ∧
      (∀ x ∈ before, w.use_count x ≠ 1) ∧
      (borrow w s).result ≠ .error (.std (.runtime_error "No connection available")) ∧
      (borrow w s).created = [w.getConnectionId it] ∧
      ∀ r, w.create (w.getConnectionId it) = .returns (some r) →
        (borrow w s).result = .ok r ∧
        (borrow w s).pool._connectionBorrowed
          = setInsert r (setErase it s._connectionBorrowed) ∧
        (borrow w s).pool._connectionPool = [] ∧
        (r ∉ s._connectionBorrowed → get_stats (borrow w s).pool = get_stats s) := by
  cases hfind : s._connectionBorrowed.find? (fun it => w.use_count it == 1) with
  | none =>
    rw [List.find?_eq_none] at hfind
    exact absurd (by simpa using hab) (hfind a ha)
  | some it =>
    have hspec := List.find?_eq_some.mp hfind
    obtain ⟨hit, before, after, hsplit, hbefore⟩ := hspec
    have hit1 : w.use_count it = 1 := by simpa using hit
    refine ⟨it, before, after, hsplit, hit1, ?_, ?_, ?_, ?_⟩
    · intro x hx
      simpa using hbefore x hx
    · rw [borrow_abandoned w s it hidle hfind]
      split <;> simp
    · rw [borrow_abandoned w s it hidle hfind]
      split <;> rfl
    · intro r hr
      have hb : borrow w s =
          { result := .ok r
            pool := { s with
              _connectionBorrowed := setInsert r (setErase it s._connectionBorrowed) }
            created := [w.getConnectionId it] } := by
        unfold borrow
        rw [hidle]
        simp only [hfind, hr]
      rw [hb]
      refine ⟨rfl, rfl, hidle, ?_⟩
      intro hfresh
      have hmem : it ∈ s._connectionBorrowed := by rw [hsplit]; simp
      have hne : r ∉ setErase it s._connectionBorrowed :=
        fun h => hfresh (List.mem_of_mem_erase h)
      have hpos : 0 < s._connectionBorrowed.length := List.length_pos_of_mem hmem
      have hlen := length_setInsert _ _ hne
      simp only [setErase, List.length_erase_of_mem hmem] at hlen
      simp only [get_stats, setErase, hlen, hidle]
      congr 1
      omega

/-- C4, on a pool of size 2 with both connections borrowed and abandoned: connection 100
(slot 0), the first of the set, is replaced by the new connection 200. -/
theorem borrow_recovers_abandoned_witness :
    (borrow abandoned pool2Borrowed).result = .ok 200 ∧
      (borrow abandoned pool2Borrowed).created = [0] ∧
      (borrow abandoned pool2Borrowed).pool._connectionBorrowed = [101, 200] ∧
      get_stats (borrow abandoned pool2Borrowed).pool = { _poolSize := 0, _borrowedSize := 2 } := by
  obtain ⟨it, before, after, hsplit, _, hbefore, _, hcreated, hrest⟩ :=
    borrow_recovers_abandoned abandoned pool2Borrowed 100 rfl (by decide) rfl
  cases before with
  | cons b before => exact absurd rfl (hbefore b (List.mem_cons_self _ _))
  | nil =>
    have hsplit2 : [100, 101] = it :: after := hsplit
    injection hsplit2 with hit _
    subst hit
    obtain ⟨hres, hset, _, hstats⟩ := hrest 200 rfl
    exact ⟨hres, hcreated, hset, hstats (by decide)⟩

/-- The path of `borrow` that keeps the connection: when the front idle connection `c` is
probed invalid and the factory throws an exception of the `std::exception` hierarchy,
`borrow` throws, `c` itself is back in the idle deque (at the back), the idle count and
the borrowed set are unchanged; and a later `borrow` that finds `c` at the front while the
factory succeeds (returns `r` for the slot id of `c`) succeeds, and, `c` being probed
invalid again, returns the replacement `r` after one call of `create` with the slot id
of `c`. -/
theorem borrow_factory_throws_keeps_connection (w : World) (s : DBConnectionPool) (c : Nat)
    (rest : List (Option Nat)) (e : StdException)
    (hfront : s._connectionPool = some c :: rest) (hinvalid : w.connectionValid c = false)
    (hthrows : w.create (w.getConnectionId c) = .throws (.std e)) :
    (∃ e1, (borrow w s).result = .error e1) ∧
      (borrow w s).pool._connectionPool = rest ++ [some c] ∧
      (borrow w s).pool._connectionPool.length = s._connectionPool.length ∧
      (borrow w s).pool._connectionBorrowed = s._connectionBorrowed ∧
      ∀ (w2 : World) (s2 : DBConnectionPool) (rest2 : List (Option Nat)) (r : Nat),
        s2._connectionPool = some c :: rest2 →
        w2.create (w2.getConnectionId c) = .returns (some r) →
        (∃ x, (borrow w2 s2).result = .ok x) ∧
          (w2.connectionValid c = false →
            (borrow w2 s2).result = .ok r ∧ (borrow w2 s2).created = [w2.getConnectionId c]) := by
  have hb := borrow_front_invalid w s c rest hfront hinvalid
  rw [hthrows] at hb
  refine ⟨?_, ?_, ?_, ?_, ?_⟩
  · cases e <;> exact ⟨_, by rw [hb]⟩
  · cases e <;> rw [hb]
  · cases e <;> rw [hb] <;> simp [hfront]
  · cases e <;> rw [hb]
  · intro w2 s2 rest2 r hfront2 hr
    cases hv : w2.connectionValid c
    · rw [borrow_front_invalid w2 s2 c rest2 hfront2 hv, hr]
      exact ⟨⟨r, rfl⟩, fun _ => ⟨rfl, rfl⟩⟩
    · rw [borrow_front_valid w2 s2 c rest2 hfront2 hv]
      exact ⟨⟨c, rfl⟩, fun h => absurd h (by simp)⟩

/-- C3, the code at the failing input: on the pool of size 1 whose connection 100 is probed
invalid, with a factory that returns `nullptr`, `borrow` fails and connection 100 is not
back in the idle deque: the deque holds a null pointer instead, and the next `borrow`,
with a factory that succeeds, fails on it without calling the factory.  On the same pool
with a factory that throws a `std::runtime_error` (the sibling path), connection 100 is
pushed back and the next `borrow` replaces it by connection 200 of slot 0. -/
theorem borrow_factory_null_loses_connection :
    pool1._connectionPool = [some 100] ∧ brokenNull.connectionValid 100 = false ∧
      brokenNull.create (brokenNull.getConnectionId 100) = .returns none ∧
      (borrow brokenNull pool1).result
        = .error (.std (.runtime_error "sqlConnection is null")) ∧
      some 100 ∉ (borrow brokenNull pool1).pool._connectionPool ∧
      (borrow brokenNull pool1).pool._connectionPool = [none] ∧
      (borrow brokenReplaced (borrow brokenNull pool1).pool).result
        = .error (.std (.runtime_error "sqlConnection is null")) ∧
      (borrow brokenReplaced (borrow brokenNull pool1).pool).created = [] ∧
      (borrow brokenThrows pool1).pool._connectionPool = [some 100] ∧
      (borrow brokenReplaced (borrow brokenThrows pool1).pool).result = .ok 200 ∧
      (borrow brokenReplaced (borrow brokenThrows pool1).pool).created = [0] :=
  ⟨rfl, rfl, rfl, rfl, by decide, rfl, rfl, rfl, rfl, rfl, rfl⟩

/-! ## The invariant along a sequence of calls -/

theorem mem_idleConnections (s : DBConnectionPool) (c : Nat) :
    c ∈ idleConnections s ↔ some c ∈ s._connectionPool := by
  simp [idleConnections, List.mem_filterMap]

theorem find_mem (w : World) (l : List Nat) (it : Nat)
    (h : l.find? (fun it => w.use_count it == 1) = some it) : it ∈ l := by
  obtain ⟨_, before, after, hsplit, _⟩ := List.find?_eq_some.mp h
  rw [hsplit]; simp

theorem wellFormed_pop (s : DBConnectionPool) (x : Option Nat) (rest : List (Option Nat))
    (hfront : s._connectionPool = x :: rest) (hwf : WellFormed s) :
    WellFormed { s with _connectionPool := rest } := by
  refine ⟨?_, ?_, hwf.borrowed_nodup, ?_⟩
  · have := hwf.size_le
    rw [hfront] at this
    simp only [List.length_cons] at this
    show rest.length + s._connectionBorrowed.length ≤ s._poolSize
    omega
  · have := hwf.idle_nodup
    simp only [idleConnections, hfront] at this ⊢
    cases x with
    | none => simpa using this
    | some c =>
      simp only [List.filterMap_cons, id, List.nodup_cons] at this
      exact this.2
  · intro c hc hmem
    exact hwf.disjoint c hc (by rw [hfront]; exact List.mem_cons_of_mem _ hmem)

theorem wellFormed_take (s : DBConnectionPool) (c r : Nat) (rest : List (Option Nat))
    (hfront : s._connectionPool = some c :: rest) (hwf : WellFormed s)
    (hr : r ∉ s._connectionBorrowed) (hrest : some r ∉ rest) :
    WellFormed { s with _connectionPool := rest
                        _connectionBorrowed := setInsert r s._connectionBorrowed } := by
  have hpop := wellFormed_pop s (some c) rest hfront hwf
  refine ⟨?_, hpop.idle_nodup, nodup_setInsert r _ hr hwf.borrowed_nodup, ?_⟩
  · have := hwf.size_le
    rw [hfront] at this
    simp only [List.length_cons] at this
    show rest.length + (setInsert r s._connectionBorrowed).length ≤ s._poolSize
    rw [length_setInsert r _ hr]
    omega
  · intro x hx hmem
    have hx2 : x ∈ setInsert r s._connectionBorrowed := hx
    rw [mem_setInsert] at hx2
    rcases hx2 with rfl | hx2
    · exact hrest hmem
    · exact hpop.disjoint x hx2 hmem

theorem wellFormed_rotate (s : DBConnectionPool) (c : Nat) (x : Option Nat)
    (rest : List (Option Nat)) (hfront : s._connectionPool = some c :: rest)
    (hwf : WellFormed s) (hx : x = none ∨ x = some c) :
    WellFormed { s with _connectionPool := rest ++ [x] } := by
  refine ⟨?_, ?_, hwf.borrowed_nodup, ?_⟩
  · have := hwf.size_le
    rw [hfront] at this
    simp only [List.length_cons] at this
    show (rest ++ [x]).length + s._connectionBorrowed.length ≤ s._poolSize
    simp only [List.length_append, List.length_singleton]
    omega
  · have := hwf.idle_nodup
    simp only [idleConnections, hfront, List.filterMap_cons, id, List.nodup_cons] at this
    simp only [idleConnections, List.filterMap_append]
    rcases hx with rfl | rfl
    · simpa using this.2
    · simp only [List.filterMap_cons, id, List.filterMap_nil]
      rw [List.nodup_append]
      refine ⟨this.2, List.nodup_singleton c, ?_⟩
      intro a ha hac
      simp only [List.mem_singleton] at hac
      subst hac
      exact this.1 ha
  · intro d hd hmem
    have hmem2 : some d ∈ rest ++ [x] := hmem
    rw [List.mem_append, List.mem_singleton] at hmem2
    have hd2 : some d ∈ s._connectionPool := by
      rw [hfront]
      rcases hmem2 with h | h
      · exact List.mem_cons_of_mem _ h
      · rcases hx with rfl | rfl
        · cases h
        · rw [h]; exact List.mem_cons_self _ _
    exact hwf.disjoint d hd hd2

theorem tracked_borrow (known : List Nat) (w : World) (s : DBConnectionPool)
    (ht : Tracked known s) (hfresh : ∀ r ∈ produced w s, r ∉ known) :
    Tracked (known ++ produced w s) (borrow w s).pool ∧
      (borrow w s).pool._poolSize = s._poolSize ∧
      (∀ d, some d ∈ (borrow w s).pool._connectionPool → some d ∈ s._connectionPool) ∧
      ∀ c, (borrow w s).result = .ok c →
        (some c ∈ s._connectionPool ∨ c ∉ known) ∧
          some c ∉ (borrow w s).pool._connectionPool ∧ c ∈ known ++ produced w s := by
  have hwf : WellFormed s := ht.toWellFormed
  have hsame : ∀ extra : List Nat, Tracked (known ++ extra) s := fun extra =>
    { toWellFormed := hwf
      idle_known := fun c hc => List.mem_append_left _ (ht.idle_known c hc)
      borrowed_known := fun c hc => List.mem_append_left _ (ht.borrowed_known c hc) }
  cases hidle : s._connectionPool with
  | nil =>
    cases hfind : s._connectionBorrowed.find? (fun it => w.use_count it == 1) with
    | none =>
      have hb := borrow_exhausted w s hidle hfind
      rw [hb]
      refine ⟨hsame _, rfl, ?_, ?_⟩
      · intro d hd; rw [hidle] at hd; exact hd
      · intro c hc; cases hc
    | some it =>
      have hb := borrow_abandoned w s it hidle hfind
      have hit : it ∈ s._connectionBorrowed := find_mem w _ it hfind
      cases hc : w.create (w.getConnectionId it) with
      | throws e =>
        rw [hc] at hb
        have hpool : (borrow w s).pool = s := by cases e <;> rw [hb]
        have hres : ∀ d, (borrow w s).result ≠ .ok d := by
          cases e <;> rw [hb] <;> intro d hd <;> cases hd
        rw [hpool]
        refine ⟨hsame _, rfl, ?_, ?_⟩
        · intro d hd; rw [hidle] at hd; exact hd
        · intro c hc; exact absurd hc (hres c)
      | returns p =>
        cases p with
        | none =>
          rw [hc] at hb
          rw [hb]
          refine ⟨hsame _, rfl, ?_, ?_⟩
          · intro d hd; rw [hidle] at hd; exact hd
          · intro c hc; cases hc
        | some r =>
          rw [hc] at hb
          have hp : produced w s = [r] := by simp [produced, hb, hc]
          rw [hp] at hfresh ⊢
          have hrk : r ∉ known := hfresh r (List.mem_singleton_self r)
          have hrb : r ∉ setErase it s._connectionBorrowed := fun h =>
            hrk (ht.borrowed_known r (List.mem_of_mem_erase h))
          rw [hb]
          refine ⟨?_, rfl, ?_, ?_⟩
          · refine { size_le := ?_, idle_nodup := hwf.idle_nodup, borrowed_nodup := ?_,
                     disjoint := ?_, idle_known := ?_, borrowed_known := ?_ }
            · have h1 := hwf.size_le
              have h2 := length_setInsert r _ hrb
              have h3 : (setErase it s._connectionBorrowed).length
                  = s._connectionBorrowed.length - 1 := List.length_erase_of_mem hit
              have h4 : 0 < s._connectionBorrowed.length := List.length_pos_of_mem hit
              show s._connectionPool.length
                + (setInsert r (setErase it s._connectionBorrowed)).length ≤ s._poolSize
              omega
            · exact nodup_setInsert r _ hrb (hwf.borrowed_nodup.erase it)
            · intro x _ hmem
              have : some x ∈ s._connectionPool := hmem
              rw [hidle] at this
              cases this
            · intro x hx
              exact List.mem_append_left _ (ht.idle_known x hx)
            · intro x hx
              have hx2 : x ∈ setInsert r (setErase it s._connectionBorrowed) := hx
              rw [mem_setInsert] at hx2
              rcases hx2 with rfl | hx2
              · simp
              · exact List.mem_append_left _ (ht.borrowed_known x (List.mem_of_mem_erase hx2))
          · intro d hd
            have : some d ∈ s._connectionPool := hd
            rw [hidle] at this
            exact this
          · intro c hc
            injection hc with hc
            subst hc
            refine ⟨Or.inr hrk, ?_, by simp⟩
            intro hmem
            have : some r ∈ s._connectionPool := hmem
            rw [hidle] at this
            cases this
  | cons x rest =>
    cases x with
    | none =>
      have hb := borrow_front_null w s rest hidle
      have hp : produced w s = [] := by simp [produced, hb]
      rw [hp, hb]
      refine ⟨?_, rfl, ?_, ?_⟩
      · exact
          { toWellFormed := wellFormed_pop s none rest hidle hwf
            idle_known := fun c hc => List.mem_append_left _
              (ht.idle_known c (by rw [hidle]; exact List.mem_cons_of_mem _ hc))
            borrowed_known := fun c hc => List.mem_append_left _ (ht.borrowed_known c hc) }
      · intro d hd; exact List.mem_cons_of_mem _ hd
      · intro c hc; cases hc
    | some c =>
      have hcidle : some c ∈ s._connectionPool := by rw [hidle]; exact List.mem_cons_self _ _
      have hrestidle : ∀ d, some d ∈ rest → some d ∈ s._connectionPool := by
        intro d hd; rw [hidle]; exact List.mem_cons_of_mem _ hd
      have hcrest : some c ∉ rest := by
        have hnd := hwf.idle_nodup
        simp only [idleConnections, hidle, List.filterMap_cons, id, List.nodup_cons,
          List.mem_filterMap] at hnd
        exact fun hmem => hnd.1 ⟨some c, hmem, rfl⟩
      cases hv : w.connectionValid c with
      | true =>
        have hb := borrow_front_valid w s c rest hidle hv
        have hp : produced w s = [] := by simp [produced, hb]
        have hcb : c ∉ s._connectionBorrowed := fun h => hwf.disjoint c h hcidle
        rw [hp, hb]
        refine ⟨?_, rfl, ?_, ?_⟩
        · refine { toWellFormed := wellFormed_take s c c rest hidle hwf hcb hcrest
                   idle_known := ?_, borrowed_known := ?_ }
          · intro d hd
            exact List.mem_append_left _ (ht.idle_known d (hrestidle d hd))
          · intro d hd
            have hd2 : d ∈ setInsert c s._connectionBorrowed := hd
            rw [mem_setInsert] at hd2
            rcases hd2 with rfl | hd2
            · exact List.mem_append_left _ (ht.idle_known d hcidle)
            · exact List.mem_append_left _ (ht.borrowed_known d hd2)
        · intro d hd; rw [← hidle]; exact hrestidle d hd
        · intro d hd
          injection hd with hd
          subst hd
          exact ⟨Or.inl (List.mem_cons_self _ _), hcrest,
            List.mem_append_left _ (ht.idle_known _ hcidle)⟩
      | false =>
        have hb := borrow_front_invalid w s c rest hidle hv
        cases hc : w.create (w.getConnectionId c) with
        | throws e0 =>
          rw [hc] at hb
          cases e0 with
          | other tag =>
            have hp : produced w s = [] := by simp [produced, hb, hc]
            rw [hp, hb]
            refine ⟨?_, rfl, ?_, ?_⟩
            · exact
                { toWellFormed := wellFormed_pop s (some c) rest hidle hwf
                  idle_known := fun d hd =>
                    List.mem_append_left _ (ht.idle_known d (hrestidle d hd))
                  borrowed_known := fun d hd =>
                    List.mem_append_left _ (ht.borrowed_known d hd) }
            · intro d hd; rw [← hidle]; exact hrestidle d hd
            · intro d hd; cases hd
          | std e =>
            have hp : produced w s = [] := by
              cases e <;> simp [produced, hb, hc]
            have hpool : (borrow w s).pool
                = { s with _connectionPool := rest ++ [some c] } := by
              cases e <;> rw [hb]
            have hres : ∀ d, (borrow w s).result ≠ .ok d := by
              cases e <;> rw [hb] <;> intro d hd <;> cases hd
            rw [hp, hpool]
            refine ⟨?_, rfl, ?_, ?_⟩
            · refine { toWellFormed :=
                         wellFormed_rotate s c (some c) rest hidle hwf (Or.inr rfl)
                       idle_known := ?_, borrowed_known := ?_ }
              · intro d hd
                have hd2 : some d ∈ rest ++ [some c] := hd
                rw [List.mem_append, List.mem_singleton] at hd2
                rcases hd2 with h | h
                · exact List.mem_append_left _ (ht.idle_known d (hrestidle d h))
                · obtain rfl : d = c := Option.some.inj h
                  exact List.mem_append_left _ (ht.idle_known d hcidle)
              · intro d hd
                exact List.mem_append_left _ (ht.borrowed_known d hd)
            · intro d hd
              have hd2 : some d ∈ rest ++ [some c] := hd
              rw [List.mem_append, List.mem_singleton] at hd2
              rw [← hidle]
              rcases hd2 with h | h
              · exact hrestidle d h
              · rw [h]; exact hcidle
            · intro d hd; exact absurd hd (hres d)
        | returns p =>
          cases p with
          | none =>
            rw [hc] at hb
            have hp : produced w s = [] := by simp [produced, hb, hc]
            rw [hp, hb]
            refine ⟨?_, rfl, ?_, ?_⟩
            · refine { toWellFormed := wellFormed_rotate s c none rest hidle hwf (Or.inl rfl)
                       idle_known := ?_, borrowed_known := ?_ }
              · intro d hd
                have hd2 : some d ∈ rest ++ [none] := hd
                rw [List.mem_append, List.mem_singleton] at hd2
                rcases hd2 with h | h
                · exact List.mem_append_left _ (ht.idle_known d (hrestidle d h))
                · cases h
              · intro d hd
                exact List.mem_append_left _ (ht.borrowed_known d hd)
            · intro d hd
              have hd2 : some d ∈ rest ++ [none] := hd
              rw [List.mem_append, List.mem_singleton] at hd2
              rw [← hidle]
              rcases hd2 with h | h
              · exact hrestidle d h
              · cases h
            · intro d hd; cases hd
          | some r =>
            rw [hc] at hb
            have hp : produced w s = [r] := by simp [produced, hb, hc]
            rw [hp] at hfresh ⊢
            have hrk : r ∉ known := hfresh r (List.mem_singleton_self r)
            have hrb : r ∉ s._connectionBorrowed := fun h => hrk (ht.borrowed_known r h)
            have hrrest : some r ∉ rest := fun h => hrk (ht.idle_known r (hrestidle r h))
            rw [hb]
            refine ⟨?_, rfl, ?_, ?_⟩
            · refine { toWellFormed := wellFormed_take s c r rest hidle hwf hrb hrrest
                       idle_known := ?_, borrowed_known := ?_ }
              · intro d hd
                exact List.mem_append_left _ (ht.idle_known d (hrestidle d hd))
              · intro d hd
                have hd2 : d ∈ setInsert r s._connectionBorrowed := hd
                rw [mem_setInsert] at hd2
                rcases hd2 with rfl | hd2
                · simp
                · exact List.mem_append_left _ (ht.borrowed_known d hd2)
            · intro d hd; rw [← hidle]; exact hrestidle d hd
            · intro d hd
              injection hd with hd
              subst hd
              exact ⟨Or.inr hrk, hrrest, by simp⟩

theorem tracked_unborrow (known : List Nat) (s : DBConnectionPool) (c : Nat)
    (ht : Tracked known s) (hc : c ∈ s._connectionBorrowed) :
    Tracked known (unborrow (some c) s).pool := by
  have hwf : WellFormed s := ht.toWellFormed
  have hcidle : some c ∉ s._connectionPool := hwf.disjoint c hc
  show Tracked known { s with _connectionPool := s._connectionPool ++ [some c]
                              _connectionBorrowed := setErase c s._connectionBorrowed }
  refine { size_le := ?_, idle_nodup := ?_, borrowed_nodup := hwf.borrowed_nodup.erase c,
           disjoint := ?_, idle_known := ?_, borrowed_known := ?_ }
  · have h1 := hwf.size_le
    have h2 : (setErase c s._connectionBorrowed).length = s._connectionBorrowed.length - 1 :=
      List.length_erase_of_mem hc
    have h3 : 0 < s._connectionBorrowed.length := List.length_pos_of_mem hc
    show (s._connectionPool ++ [some c]).length + (setErase c s._connectionBorrowed).length
      ≤ s._poolSize
    simp only [List.length_append, List.length_singleton]
    omega
  · have hnd := hwf.idle_nodup
    simp only [idleConnections] at hnd
    simp only [idleConnections, List.filterMap_append, List.filterMap_cons, id,
      List.filterMap_nil]
    rw [List.nodup_append]
    refine ⟨hnd, List.nodup_singleton c, ?_⟩
    intro a ha hac
    simp only [List.mem_singleton] at hac
    subst hac
    exact hcidle ((mem_idleConnections s a).mp ha)
  · intro d hd hmem
    have hd2 : d ∈ s._connectionBorrowed.erase c := hd
    rw [hwf.borrowed_nodup.mem_erase_iff] at hd2
    have hmem2 : some d ∈ s._connectionPool ++ [some c] := hmem
    rw [List.mem_append, List.mem_singleton] at hmem2
    rcases hmem2 with h | h
    · exact hwf.disjoint d hd2.2 h
    · exact hd2.1 (Option.some.inj h)
  · intro d hd
    have hd2 : some d ∈ s._connectionPool ++ [some c] := hd
    rw [List.mem_append, List.mem_singleton] at hd2
    rcases hd2 with h | h
    · exact ht.idle_known d h
    · obtain rfl : d = c := Option.some.inj h
      exact ht.borrowed_known d hc
  · intro d hd
    exact ht.borrowed_known d (List.mem_of_mem_erase hd)

theorem fillPool_length (create : Int → CreateResult) (n : Nat) :
    ∀ (pool : List (Option Nat)) (k : Int) (log : List Int) (out : List (Option Nat)),
      (fillPool create n pool k log).1 = .ok out → out.length = pool.length + n := by
  induction n with
  | zero =>
    intro pool k log out h
    simp only [fillPool] at h
    injection h with h
    subst h
    rfl
  | succ n ih =>
    intro pool k log out h
    rw [fillPool] at h
    cases hc : create k with
    | throws e => rw [hc] at h; cases h
    | returns p =>
      rw [hc] at h
      have := ih _ _ _ _ h
      simp only [List.length_append, List.length_singleton] at this
      omega

theorem new_ok (poolSize : Nat) (create : Int → CreateResult) (s : DBConnectionPool)
    (hnew : (DBConnectionPool.new poolSize create).result = .ok s) :
    s._poolSize = poolSize ∧ s._connectionPool.length = poolSize ∧ s._connectionBorrowed = [] := by
  simp only [DBConnectionPool.new, List.length_nil, Nat.sub_zero] at hnew
  cases hf : (fillPool create poolSize [] 0 []).1 with
  | error e => rw [hf] at hnew; cases hnew
  | ok out =>
    rw [hf] at hnew
    have hlen := fillPool_length create poolSize [] 0 [] out hf
    simp only [Except.map] at hnew
    injection hnew with hnew
    subst hnew
    exact ⟨rfl, by simpa using hlen, rfl⟩

theorem tracked_new (poolSize : Nat) (create : Int → CreateResult) (s : DBConnectionPool)
    (hnew : (DBConnectionPool.new poolSize create).result = .ok s)
    (hdistinct : (idleConnections s).Nodup) : Tracked (idleConnections s) s := by
  obtain ⟨h1, h2, h3⟩ := new_ok poolSize create s hnew
  refine { size_le := ?_, idle_nodup := hdistinct, borrowed_nodup := ?_, disjoint := ?_,
           idle_known := ?_, borrowed_known := ?_ }
  · rw [h1, h2, h3]; simp
  · rw [h3]; exact List.nodup_nil
  · intro c hc; rw [h3] at hc; cases hc
  · intro c hc; exact (mem_idleConnections s c).mpr hc
  · intro c hc; rw [h3] at hc; cases hc

theorem tracked_exec (calls : List Call) :
    ∀ (known : List Nat) (s : DBConnectionPool), Tracked known s → Legal known s calls →
      (exec s calls)._poolSize = s._poolSize ∧ ∃ known2, Tracked known2 (exec s calls) := by
  induction calls with
  | nil => intro known s ht _; exact ⟨rfl, known, ht⟩
  | cons call calls ih =>
    intro known s ht hlegal
    cases call with
    | borrow w =>
      obtain ⟨hfresh, hrest⟩ := hlegal
      obtain ⟨ht2, hsize, _, _⟩ := tracked_borrow known w s ht hfresh
      obtain ⟨h1, h2⟩ := ih _ _ ht2 hrest
      exact ⟨h1.trans hsize, h2⟩
    | unborrow sqlConnection =>
      obtain ⟨hmem, hrest⟩ := hlegal
      cases sqlConnection with
      | none => exact ih known s ht hrest
      | some c =>
        have ht2 := tracked_unborrow known s c ht (hmem c rfl)
        obtain ⟨h1, h2⟩ := ih _ _ ht2 hrest
        exact ⟨h1, h2⟩
    | get_stats => exact ih known s ht hlegal

/-- C1, as amended: from a pool built by the constructor with pairwise distinct
connections, after every sequence of `borrow`, `unborrow` and `get_stats` calls in which
the factory hands out new connections only and every `unborrow` argument is borrowed at
the time of the call (or null), the idle count plus the borrowed count is at most
`poolSize` and no connection is both in the idle deque and in the borrowed set. -/
theorem pool_invariant (poolSize : Nat) (create : Int → CreateResult) (s : DBConnectionPool)
    (calls : List Call) (hnew : (DBConnectionPool.new poolSize create).result = .ok s)
    (hdistinct : (idleConnections s).Nodup) (hlegal : Legal (idleConnections s) s calls) :
    (get_stats (exec s calls))._poolSize + (get_stats (exec s calls))._borrowedSize ≤ poolSize ∧
      ∀ c, some c ∈ (exec s calls)._connectionPool → c ∉ (exec s calls)._connectionBorrowed := by
  obtain ⟨hsize, known2, ht⟩ :=
    tracked_exec calls _ s (tracked_new poolSize create s hnew hdistinct) hlegal
  have hps := (new_ok poolSize create s hnew).1
  refine ⟨?_, ?_⟩
  · have := ht.size_le
    rw [hsize, hps] at this
    exact this
  · intro c hidle hborrowed
    exact ht.disjoint c hborrowed hidle

/-- C1, as amended, on the pool of size 2 and the calls of `sampleCalls`. -/
theorem pool_invariant_witness :
    (get_stats (exec pool2 sampleCalls))._poolSize
        + (get_stats (exec pool2 sampleCalls))._borrowedSize ≤ 2 ∧
      ∀ c, some c ∈ (exec pool2 sampleCalls)._connectionPool →
        c ∉ (exec pool2 sampleCalls)._connectionBorrowed :=
  pool_invariant 2 factoryOk pool2 sampleCalls rfl (by decide)
    (by simp [sampleCalls, Legal, produced, borrow, unborrow, pool2, healthy, brokenReplaced,
          idleConnections, setInsert, setErase, slotOf])

/-- C1, counterexample: on the pool of size 1, a client borrows connection 100 and then
calls `unborrow` twice with it (each time a connection that `borrow` returned before).
The idle count is then 2, above the pool size 1; one more `borrow` leaves connection 100
both in the idle deque and in the borrowed set. -/
theorem double_unborrow_breaks_invariant :
    (DBConnectionPool.new 1 factoryOk).result = .ok pool1 ∧
      LegalReturned (idleConnections pool1) [] pool1 doubleUnborrowBorrow ∧
      get_stats (exec pool1 doubleUnborrow) = { _poolSize := 2, _borrowedSize := 0 } ∧
      ¬ ((get_stats (exec pool1 doubleUnborrow))._poolSize
          + (get_stats (exec pool1 doubleUnborrow))._borrowedSize ≤ 1) ∧
      some 100 ∈ (exec pool1 doubleUnborrowBorrow)._connectionPool ∧
      100 ∈ (exec pool1 doubleUnborrowBorrow)._connectionBorrowed := by
  refine ⟨rfl, ?_, rfl, by decide, by decide, by decide⟩
  simp [doubleUnborrowBorrow, LegalReturned, produced, borrow, unborrow, pool1, healthy,
    idleConnections, setInsert, setErase]

/-! ## At most one borrower -/

theorem heldAfter_returned (c d : Nat) (hist : List Event) :
    heldAfter c (hist ++ [.returned d]) = (heldAfter c hist || d == c) := by
  simp [heldAfter, List.foldl_append]

theorem heldAfter_unborrowed (c d : Nat) (hist : List Event) :
    heldAfter c (hist ++ [.unborrowed d]) = (heldAfter c hist && d != c) := by
  simp [heldAfter, List.foldl_append]

theorem heldAfter_of_split (c : Nat) (pre mid : List Event)
    (hmid : Event.unborrowed c ∉ mid) : heldAfter c (pre ++ .returned c :: mid) = true := by
  have hkeep : ∀ (l : List Event), Event.unborrowed c ∉ l →
      l.foldl
        (fun held e =>
          match e with
          | .returned d => held || d == c
          | .unborrowed d => held && d != c)
        true = true := by
    intro l
    induction l with
    | nil => intro _; rfl
    | cons e l ih =>
      intro hl
      simp only [List.mem_cons, not_or] at hl
      cases e with
      | returned d => simpa using ih hl.2
      | unborrowed d =>
        have hd : d ≠ c := fun h => hl.1 (by rw [h])
        have hbne : (d != c) = true := by simpa using hd
        simp only [List.foldl_cons, Bool.true_and, hbne]
        exact ih hl.2
  simp only [heldAfter, List.foldl_append, List.foldl_cons, beq_self_eq_true, Bool.or_true]
  exact hkeep mid hmid

theorem not_held_when_returned (calls : List Call) :
    ∀ (known : List Nat) (s : DBConnectionPool) (hist : List Event), Tracked known s →
      (∀ c, heldAfter c hist = true → c ∈ known ∧ some c ∉ s._connectionPool) →
      Legal known s calls →
      ∀ (evs : List Event) (c : Nat) (post : List Event),
        events s calls = evs ++ .returned c :: post → heldAfter c (hist ++ evs) = false := by
  induction calls with
  | nil =>
    intro known s hist _ _ _ evs c post hev
    simp [events] at hev
  | cons call calls ih =>
    intro known s hist ht hheld hlegal evs c post hev
    cases call with
    | get_stats => exact ih known s hist ht hheld hlegal evs c post hev
    | unborrow sqlConnection =>
      obtain ⟨hmem, hrest⟩ := hlegal
      cases sqlConnection with
      | none => exact ih known s hist ht hheld hrest evs c post hev
      | some c0 =>
        have hc0 : c0 ∈ s._connectionBorrowed := hmem c0 rfl
        have ht2 := tracked_unborrow known s c0 ht hc0
        simp only [events, observe, step, List.singleton_append] at hev
        cases evs with
        | nil => simp at hev
        | cons e evs1 =>
          simp only [List.cons_append, List.cons.injEq] at hev
          obtain ⟨he, hev1⟩ := hev
          subst he
          have hheld2 : ∀ d, heldAfter d (hist ++ [.unborrowed c0]) = true →
              d ∈ known ∧ some d ∉ (unborrow (some c0) s).pool._connectionPool := by
            intro d hd
            rw [heldAfter_unborrowed] at hd
            simp only [Bool.and_eq_true, bne_iff_ne, ne_eq] at hd
            obtain ⟨hk, hi⟩ := hheld d hd.1
            refine ⟨hk, ?_⟩
            intro hmem2
            have hmem3 : some d ∈ s._connectionPool ++ [some c0] := hmem2
            rw [List.mem_append, List.mem_singleton] at hmem3
            rcases hmem3 with h | h
            · exact hi h
            · exact hd.2 (Option.some.inj h).symm
          have := ih known _ (hist ++ [.unborrowed c0]) ht2 hheld2 hrest evs1 c post hev1
          simpa using this
    | borrow w =>
      obtain ⟨hfresh, hrest⟩ := hlegal
      obtain ⟨ht2, _, hsub, hok⟩ := tracked_borrow known w s ht hfresh
      cases hres : (borrow w s).result with
      | error e =>
        simp only [events, observe, step, hres, List.nil_append] at hev
        have hheld2 : ∀ d, heldAfter d hist = true →
            d ∈ known ++ produced w s ∧ some d ∉ (borrow w s).pool._connectionPool := by
          intro d hd
          obtain ⟨hk, hi⟩ := hheld d hd
          exact ⟨List.mem_append_left _ hk, fun h => hi (hsub d h)⟩
        exact ih _ _ hist ht2 hheld2 hrest evs c post hev
      | ok c0 =>
        obtain ⟨horigin, hgone, hknown⟩ := hok c0 hres
        simp only [events, observe, step, hres, List.singleton_append] at hev
        cases evs with
        | nil =>
          simp only [List.nil_append, List.cons.injEq, Event.returned.injEq] at hev
          obtain ⟨he, _⟩ := hev
          subst he
          simp only [List.append_nil]
          cases hh : heldAfter c0 hist with
          | false => rfl
          | true =>
            obtain ⟨hk, hi⟩ := hheld c0 hh
            rcases horigin with h | h
            · exact absurd h hi
            · exact absurd hk h
        | cons e evs1 =>
          simp only [List.cons_append, List.cons.injEq] at hev
          obtain ⟨he, hev1⟩ := hev
          subst he
          have hheld2 : ∀ d, heldAfter d (hist ++ [.returned c0]) = true →
              d ∈ known ++ produced w s ∧ some d ∉ (borrow w s).pool._connectionPool := by
            intro d hd
            rw [heldAfter_returned] at hd
            simp only [Bool.or_eq_true, beq_iff_eq] at hd
            rcases hd with hd | hd
            · obtain ⟨hk, hi⟩ := hheld d hd
              exact ⟨List.mem_append_left _ hk, fun h => hi (hsub d h)⟩
            · subst hd
              exact ⟨hknown, hgone⟩
          have := ih _ _ (hist ++ [.returned c0]) ht2 hheld2 hrest evs1 c post hev1
          simpa using this

/-- C2, as amended: with each pool operation one atomic step, from a pool built by the
constructor with pairwise distinct connections, for every sequence of calls in which the
factory hands out new connections only and every `unborrow` argument is borrowed at the
time of the call, a connection returned by one `borrow` is not returned by a later
`borrow` unless `unborrow` was called with it in between. -/
theorem returned_again_only_after_unborrow (poolSize : Nat) (create : Int → CreateResult)
    (s : DBConnectionPool) (calls : List Call)
    (hnew : (DBConnectionPool.new poolSize create).result = .ok s)
    (hdistinct : (idleConnections s).Nodup) (hlegal : Legal (idleConnections s) s calls)
    (c : Nat) (pre mid post : List Event)
    (hev : events s calls = pre ++ .returned c :: mid ++ .returned c :: post) :
    Event.unborrowed c ∈ mid := by
  by_contra hmid
  have hheld := heldAfter_of_split c pre mid hmid
  have hnot := not_held_when_returned calls _ s [] (tracked_new poolSize create s hnew hdistinct)
    (by intro d hd; simp [heldAfter] at hd) hlegal (pre ++ .returned c :: mid) c post
    (by rw [hev])
  simp only [List.nil_append] at hnot
  rw [hheld] at hnot
  cases hnot

/-- C2, as amended, on the pool of size 2 and the calls of `sampleCalls`: connection 100
is returned twice, with `unborrow(100)` in between. -/
theorem returned_again_only_after_unborrow_witness :
    events pool2 sampleCalls
        = [.returned 100, .unborrowed 100, .returned 201, .returned 100] ∧
      Event.unborrowed 100 ∈ [Event.unborrowed 100, Event.returned 201] :=
  ⟨rfl, returned_again_only_after_unborrow 2 factoryOk pool2 sampleCalls rfl (by decide)
    (by simp [sampleCalls, Legal, produced, borrow, unborrow, pool2, healthy, brokenReplaced,
          idleConnections, setInsert, setErase, slotOf])
    100 [] [.unborrowed 100, .returned 201] [] rfl⟩

/-- C2, counterexample: on the pool of size 1, a client borrows connection 100 and calls
`unborrow` twice with it (each time a connection that `borrow` returned before); the next
two calls of `borrow` both return connection 100, with no `unborrow` between them. -/
theorem double_unborrow_returns_twice :
    (DBConnectionPool.new 1 factoryOk).result = .ok pool1 ∧
      LegalReturned (idleConnections pool1) [] pool1 doubleUnborrowBorrowTwice ∧
      events pool1 doubleUnborrowBorrowTwice
        = [.returned 100, .unborrowed 100, .unborrowed 100] ++ .returned 100 :: []
            ++ .returned 100 :: [] ∧
      Event.unborrowed 100 ∉ ([] : List Event) := by
  refine ⟨rfl, ?_, rfl, by decide⟩
  simp [doubleUnborrowBorrowTwice, LegalReturned, produced, borrow, unborrow, pool1, healthy,
    idleConnections, setInsert, setErase]

/-! ## Order of the idle deque -/

theorem borrowAll_order (A B : Nat) (hAB : A ≠ B) (ws : List World) :
    ∀ (s : DBConnectionPool) (pre post : List (Option Nat)),
      s._connectionPool = pre ++ some A :: post → some B ∉ pre →
      (∀ w ∈ ws, ∀ c, w.connectionValid c = true) →
      (∀ r ∈ (borrowAll ws s).1, ∃ c, r = .ok c) →
      ∀ j : Nat, (borrowAll ws s).1[j]? = some (Except.ok B) →
        ∃ i, i < j ∧ (borrowAll ws s).1[i]? = some (Except.ok A) := by
  induction ws with
  | nil =>
    intro s pre post _ _ _ _ j hj
    simp [borrowAll] at hj
  | cons w ws ih =>
    intro s pre post hidle hB hvalid hsucc j hj
    have hw : ∀ c, w.connectionValid c = true := hvalid w (List.mem_cons_self _ _)
    have hvalid2 : ∀ w2 ∈ ws, ∀ c, w2.connectionValid c = true :=
      fun w2 h2 => hvalid w2 (List.mem_cons_of_mem _ h2)
    simp only [borrowAll] at hsucc hj ⊢
    cases pre with
    | nil =>
      have hb := borrow_front_valid w s A post (by simpa using hidle) (hw A)
      cases j with
      | zero =>
        simp only [List.getElem?_cons_zero, hb, Option.some.injEq, Except.ok.injEq] at hj
        exact absurd hj hAB
      | succ j => exact ⟨0, Nat.succ_pos j, by simp [hb]⟩
    | cons x pre =>
      cases x with
      | none =>
        have hb := borrow_front_null w s (pre ++ some A :: post) (by simpa using hidle)
        obtain ⟨c, hc⟩ := hsucc (borrow w s).result (List.mem_cons_self _ _)
        rw [hb] at hc
        cases hc
      | some c =>
        have hb := borrow_front_valid w s c (pre ++ some A :: post) (by simpa using hidle) (hw c)
        have hcB : c ≠ B := by
          rintro rfl
          exact hB (List.mem_cons_self _ _)
        cases j with
        | zero =>
          simp only [List.getElem?_cons_zero, hb, Option.some.injEq, Except.ok.injEq] at hj
          exact absurd hj hcB
        | succ j =>
          simp only [List.getElem?_cons_succ] at hj
          have hidle2 : (borrow w s).pool._connectionPool = pre ++ some A :: post := by
            rw [hb]
          obtain ⟨i, hi, hiA⟩ := ih (borrow w s).pool pre post hidle2
            (fun h => hB (List.mem_cons_of_mem _ h)) hvalid2
            (fun r hr => hsucc r (List.mem_cons_of_mem _ hr)) j hj
          exact ⟨i + 1, Nat.succ_lt_succ hi, by simpa using hiA⟩

/-- C5: in a well-formed pool, for distinct connections `A` and `B` with `B` borrowed
(of `A` nothing more is needed), after `unborrow(A)` followed by `unborrow(B)`, in every
run of successful calls of `borrow` in which all probes report valid, whenever a call
returns `B` an earlier call of the run has returned `A`; and when the idle deque was empty
before `unborrow(A)`, the next two calls of `borrow` return `A` and then `B`. -/
theorem idle_deque_fifo (s : DBConnectionPool) (A B : Nat) (hAB : A ≠ B) (hwf : WellFormed s)
    (hB : B ∈ s._connectionBorrowed) :
    (∀ ws : List World, (∀ w ∈ ws, ∀ c, w.connectionValid c = true) →
      (∀ r ∈ (borrowAll ws (unborrow (some B) (unborrow (some A) s).pool).pool).1,
        ∃ c, r = .ok c) →
      ∀ j : Nat, (borrowAll ws (unborrow (some B) (unborrow (some A) s).pool).pool).1[j]?
          = some (Except.ok B) →
        ∃ i, i < j ∧
          (borrowAll ws (unborrow (some B) (unborrow (some A) s).pool).pool).1[i]?
            = some (Except.ok A)) ∧
      (s._connectionPool = [] → ∀ w1 w2 : World,
        w1.connectionValid A = true → w2.connectionValid B = true →
        (borrow w1 (unborrow (some B) (unborrow (some A) s).pool).pool).result = .ok A ∧
          (borrow w2
            (borrow w1 (unborrow (some B) (unborrow (some A) s).pool).pool).pool).result
            = .ok B) := by
  have hidle2 : (unborrow (some B) (unborrow (some A) s).pool).pool._connectionPool
      = s._connectionPool ++ some A :: [some B] := by
    simp [unborrow]
  constructor
  · intro ws hvalid hsucc j hj
    exact borrowAll_order A B hAB ws _ s._connectionPool [some B] hidle2
      (hwf.disjoint B hB) hvalid hsucc j hj
  · intro hempty w1 w2 h1 h2
    rw [hempty] at hidle2
    have hb1 := borrow_front_valid w1 _ A [some B] hidle2 h1
    have hb2 := borrow_front_valid w2 (borrow w1 _).pool B [] (by rw [hb1]) h2
    exact ⟨by rw [hb1], by rw [hb2]⟩

/-- C5, on a pool of size 2 with connections 100 and 101 borrowed and an empty idle
deque: after `unborrow(101)` and `unborrow(100)` the next two calls of `borrow` return 101
and then 100. -/
theorem idle_deque_fifo_witness :
    (∃ i, i < 1 ∧
      (borrowAll [healthy, healthy]
        (unborrow (some 100) (unborrow (some 101) pool2Borrowed).pool).pool).1[i]?
        = some (Except.ok 101)) ∧
      (borrow healthy (unborrow (some 100) (unborrow (some 101) pool2Borrowed).pool).pool).result
        = .ok 101 ∧
      (borrow healthy (borrow healthy
        (unborrow (some 100) (unborrow (some 101) pool2Borrowed).pool).pool).pool).result
        = .ok 100 :=
  have h := idle_deque_fifo pool2Borrowed 101 100 (by decide)
    ⟨by decide, by decide, by decide, by decide⟩ (by decide)
  ⟨h.1 [healthy, healthy]
      (fun w hw c => by
        simp only [List.mem_cons, List.mem_singleton, or_self, List.not_mem_nil, or_false] at hw
        subst hw; rfl)
      (fun r hr => by
        have hr2 : r ∈ [Except.ok 101, Except.ok 100] := hr
        simp only [List.mem_cons, List.mem_singleton, List.not_mem_nil, or_false] at hr2
        rcases hr2 with rfl | rfl <;> exact ⟨_, rfl⟩)
      1 rfl,
    h.2 rfl healthy healthy rfl rfl⟩

/-! ## Accuracy of the statistics -/

theorem plain_borrow (known : List Nat) (w : World) (s : DBConnectionPool)
    (ht : Tracked known s) (hok : ∃ c, (borrow w s).result = .ok c)
    (hcreated : (borrow w s).created = []) :
    Tracked known (borrow w s).pool ∧
      (borrow w s).pool._connectionPool.length + 1 = s._connectionPool.length ∧
      (borrow w s).pool._connectionBorrowed.length = s._connectionBorrowed.length + 1 := by
  have hp : produced w s = [] := by simp [produced, hcreated]
  have ht2 := (tracked_borrow known w s ht (by rw [hp]; intro r hr; cases hr)).1
  rw [hp, List.append_nil] at ht2
  refine ⟨ht2, ?_⟩
  obtain ⟨c0, hc0⟩ := hok
  cases hidle : s._connectionPool with
  | nil =>
    cases hfind : s._connectionBorrowed.find? (fun it => w.use_count it == 1) with
    | none =>
      rw [borrow_exhausted w s hidle hfind] at hc0
      cases hc0
    | some it =>
      have hb := borrow_abandoned w s it hidle hfind
      rw [hb] at hcreated
      cases hc : w.create (w.getConnectionId it) with
      | throws e => rw [hc] at hcreated; cases e <;> cases hcreated
      | returns p =>
        rw [hc] at hcreated
        cases p <;> cases hcreated
  | cons x rest =>
    cases x with
    | none =>
      rw [borrow_front_null w s rest hidle] at hc0
      cases hc0
    | some c =>
      cases hv : w.connectionValid c with
      | true =>
        have hb := borrow_front_valid w s c rest hidle hv
        have hcb : c ∉ s._connectionBorrowed := fun h =>
          ht.disjoint c h (by rw [hidle]; exact List.mem_cons_self _ _)
        rw [hb]
        exact ⟨by simp, length_setInsert c _ hcb⟩
      | false =>
        have hb := borrow_front_invalid w s c rest hidle hv
        rw [hb] at hcreated
        cases hc : w.create (w.getConnectionId c) with
        | throws e =>
          rw [hc] at hcreated
          cases e with
          | other tag => cases hcreated
          | std e => cases e <;> cases hcreated
        | returns p =>
          rw [hc] at hcreated
          cases p <;> cases hcreated

theorem plain_counts (calls : List Call) :
    ∀ (known : List Nat) (s : DBConnectionPool), Tracked known s → Plain s calls →
      (exec s calls)._connectionBorrowed.length + countUnborrow calls
          = s._connectionBorrowed.length + countBorrow calls ∧
        (exec s calls)._connectionPool.length + countBorrow calls
          = s._connectionPool.length + countUnborrow calls := by
  induction calls with
  | nil => intro known s _ _; exact ⟨rfl, rfl⟩
  | cons call calls ih =>
    intro known s ht hplain
    cases call with
    | get_stats => exact ih known s ht hplain
    | borrow w =>
      obtain ⟨hok, hcreated, hrest⟩ := hplain
      obtain ⟨ht2, h1, h2⟩ := plain_borrow known w s ht hok hcreated
      obtain ⟨h3, h4⟩ := ih known _ ht2 hrest
      have e : exec s (Call.borrow w :: calls) = exec (borrow w s).pool calls := rfl
      simp only [e, countBorrow, countUnborrow]
      constructor <;> omega
    | unborrow sqlConnection =>
      obtain ⟨⟨c, hsome, hc⟩, hrest⟩ := hplain
      subst hsome
      have ht2 := tracked_unborrow known s c ht hc
      obtain ⟨h3, h4⟩ := ih known _ ht2 hrest
      have e : exec s (Call.unborrow (some c) :: calls)
          = exec (unborrow (some c) s).pool calls := rfl
      have h1 : (unborrow (some c) s).pool._connectionPool.length
          = s._connectionPool.length + 1 := by simp [unborrow]
      have h2 : (unborrow (some c) s).pool._connectionBorrowed.length
          = s._connectionBorrowed.length - 1 := List.length_erase_of_mem hc
      have h5 : 0 < s._connectionBorrowed.length := List.length_pos_of_mem hc
      simp only [e, countBorrow, countUnborrow]
      constructor <;> omega

/-- C6: from a pool of size `poolSize` built by the constructor with pairwise distinct
connections, after every interleaving of N successful calls of `borrow` that do not call
the factory (no replacement) and M calls of `unborrow`, each with a connection borrowed at
that time, M is at most N and `get_stats` reports N - M borrowed connections and
poolSize - (N - M) idle ones (in the field named `_poolSize`). -/
theorem stats_accuracy (poolSize : Nat) (create : Int → CreateResult) (s : DBConnectionPool)
    (calls : List Call) (hnew : (DBConnectionPool.new poolSize create).result = .ok s)
    (hdistinct : (idleConnections s).Nodup) (hplain : Plain s calls) :
    countUnborrow calls ≤ countBorrow calls ∧
      get_stats (exec s calls) =
        { _poolSize := poolSize - (countBorrow calls - countUnborrow calls)
          _borrowedSize := countBorrow calls - countUnborrow calls } := by
  obtain ⟨h1, h2, h3⟩ := new_ok poolSize create s hnew
  obtain ⟨h4, h5⟩ := plain_counts calls _ s (tracked_new poolSize create s hnew hdistinct) hplain
  rw [h3] at h4
  rw [h2] at h5
  simp only [List.length_nil, zero_add] at h4
  refine ⟨by omega, ?_⟩
  simp only [get_stats]
  congr 1 <;> omega

/-- C6, on the pool of size 2 with three calls of `borrow` and two of `unborrow`:
`get_stats` reports 1 borrowed and 1 idle connection. -/
theorem stats_accuracy_witness :
    get_stats (exec pool2 plainCalls) = { _poolSize := 1, _borrowedSize := 1 } :=
  (stats_accuracy 2 factoryOk pool2 plainCalls rfl (by decide)
    (by simp [plainCalls, Plain, borrow, unborrow, pool2, healthy, setInsert, setErase])).2

/-! ## Exhaustion and reuse -/

theorem borrowAll_idle (l : List Nat) :
    ∀ (ws : List World) (s : DBConnectionPool), ws.length = l.length →
      s._connectionPool = l.map some → l.Nodup → (∀ c ∈ l, c ∉ s._connectionBorrowed) →
      (∀ w ∈ ws, ∀ c, w.connectionValid c = true) →
      (borrowAll ws s).1 = l.map Except.ok ∧ (borrowAll ws s).2._connectionPool = [] ∧
        (borrowAll ws s).2._connectionBorrowed.length = s._connectionBorrowed.length + l.length ∧
        ∀ x, x ∈ (borrowAll ws s).2._connectionBorrowed → x ∈ l ∨ x ∈ s._connectionBorrowed := by
  induction l with
  | nil =>
    intro ws s hlen hidle _ _ _
    have : ws = [] := List.length_eq_zero.mp hlen
    subst this
    exact ⟨rfl, hidle, rfl, fun x hx => Or.inr hx⟩
  | cons c l ih =>
    intro ws s hlen hidle hnd hdisj hvalid
    cases ws with
    | nil => simp at hlen
    | cons w ws =>
      have hb := borrow_front_valid w s c (l.map some) (by simpa using hidle)
        (hvalid w (List.mem_cons_self _ _) c)
      rw [List.nodup_cons] at hnd
      have hcb : c ∉ s._connectionBorrowed := hdisj c (List.mem_cons_self _ _)
      have hdisj2 : ∀ d ∈ l, d ∉ (borrow w s).pool._connectionBorrowed := by
        intro d hd
        rw [hb]
        simp only [mem_setInsert, not_or]
        exact ⟨fun h => hnd.1 (h ▸ hd), hdisj d (List.mem_cons_of_mem _ hd)⟩
      obtain ⟨h1, h2, h3, h4⟩ := ih ws (borrow w s).pool (by simpa using hlen) (by rw [hb])
        hnd.2 hdisj2 (fun w2 h2 => hvalid w2 (List.mem_cons_of_mem _ h2))
      have hlen2 : (borrow w s).pool._connectionBorrowed.length
          = s._connectionBorrowed.length + 1 := by
        rw [hb]; exact length_setInsert c _ hcb
      simp only [borrowAll]
      refine ⟨?_, h2, ?_, ?_⟩
      · rw [h1, hb]; rfl
      · rw [h3, hlen2, List.length_cons]; omega
      · intro x hx
        rcases h4 x hx with h | h
        · exact Or.inl (List.mem_cons_of_mem _ h)
        · rw [hb] at h
          have h5 : x ∈ setInsert c s._connectionBorrowed := h
          rw [mem_setInsert] at h5
          rcases h5 with rfl | h5
          · exact Or.inl (List.mem_cons_self _ _)
          · exact Or.inr h5

/-- C7: for a pool of any size `n` built by a factory that succeeds with pairwise distinct
connections `conn 0`, ..., `conn (n-1)`, all probes reporting valid: the first `n` calls of
`borrow` return these `n` distinct connections in order and leave `n` borrowed
connections; one more `borrow`, every borrower keeping its handle (no use count of 1),
fails with "No connection available", calls no factory and leaves the pool as it is; and
after `unborrow(c)` of a borrowed connection `c` the next `borrow` returns `c`. -/
theorem exhaustion_and_reuse (n : Nat) (create : Int → CreateResult) (conn : Int → Nat)
    (hok : ∀ j : Nat, j < n → create j = .returns (some (conn j)))
    (hdistinct : ((List.range n).map fun (j : Nat) => conn j).Nodup)
    (ws : List World) (hlen : ws.length = n)
    (hvalid : ∀ w ∈ ws, ∀ c, w.connectionValid c = true) :
    ∃ s, (DBConnectionPool.new n create).result = .ok s ∧
      (borrowAll ws s).1 = (List.range n).map (fun (j : Nat) => Except.ok (conn j)) ∧
      (borrowAll ws s).1.Nodup ∧
      get_stats (borrowAll ws s).2 = { _poolSize := 0, _borrowedSize := n } ∧
      (∀ w : World, (∀ c ∈ (borrowAll ws s).2._connectionBorrowed, w.use_count c ≠ 1) →
        borrow w (borrowAll ws s).2 =
          { result := .error (.std (.runtime_error "No connection available"))
            pool := (borrowAll ws s).2
            created := [] }) ∧
      ∀ c ∈ (borrowAll ws s).2._connectionBorrowed, ∀ w : World, w.connectionValid c = true →
        (borrow w (unborrow (some c) (borrowAll ws s).2).pool).result = .ok c := by
  have hnew := (constructor_result n create conn hok)
  refine ⟨_, hnew, ?_⟩
  obtain ⟨h1, h2, h3, _⟩ := borrowAll_idle ((List.range n).map fun (j : Nat) => conn j) ws
    { _poolSize := n
      _connectionPool := (List.range n).map fun (j : Nat) => some (conn j)
      _connectionBorrowed := [] }
    (by simp [hlen]) (by simp [List.map_map, Function.comp]) hdistinct
    (by intro c _ h; cases h) hvalid
  have hres : (borrowAll ws
      { _poolSize := n
        _connectionPool := (List.range n).map fun (j : Nat) => some (conn j)
        _connectionBorrowed := [] }).1
      = (List.range n).map (fun (j : Nat) => Except.ok (conn j)) := by
    rw [h1]; simp [List.map_map, Function.comp]
  refine ⟨hres, ?_, ?_, ?_, ?_⟩
  · rw [h1]
    exact hdistinct.map (fun a b h => by injection h)
  · simp only [get_stats, h2, h3]
    simp
  · intro w hkeep
    apply borrow_exhausted w _ h2
    rw [List.find?_eq_none]
    intro x hx
    simpa using hkeep x hx
  · intro c _ w hv
    have hidle : (unborrow (some c) (borrowAll ws
        { _poolSize := n
          _connectionPool := (List.range n).map fun (j : Nat) => some (conn j)
          _connectionBorrowed := [] }).2).pool._connectionPool = [some c] := by
      simp [unborrow, h2]
    rw [borrow_front_valid w _ c [] hidle hv]

/-- C7, at n = 2: the two calls of `borrow` return connections 100 and 101, the third one
fails with "No connection available" and changes nothing, and after `unborrow(100)` the
next `borrow` returns connection 100. -/
theorem exhaustion_and_reuse_witness :
    (borrowAll [healthy, healthy] pool2).1 = [.ok 100, .ok 101] ∧
      borrow healthy (borrowAll [healthy, healthy] pool2).2 =
        { result := .error (.std (.runtime_error "No connection available"))
          pool := pool2Borrowed
          created := [] } ∧
      (borrow healthy (unborrow (some 100) pool2Borrowed).pool).result = .ok 100 := by
  obtain ⟨s, hs, h1, _, _, h4, h5⟩ :=
    exhaustion_and_reuse 2 factoryOk (fun j => 100 + j.toNat) (fun _ _ => rfl) (by decide)
      [healthy, healthy] rfl
      (fun w hw c => by
        simp only [List.mem_cons, List.mem_singleton, or_self, List.not_mem_nil, or_false] at hw
        subst hw; rfl)
  have hs2 : (Except.ok pool2 : Except Thrown DBConnectionPool) = .ok s := hs
  injection hs2 with hs2
  subst hs2
  exact ⟨h1, h4 healthy (fun _ _ => by simp [healthy]), h5 100 (by decide) healthy rfl⟩

/-! ## Failure of the constructor -/

theorem fillPool_throws (create : Int → CreateResult) (n : Nat) :
    ∀ (pool : List (Option Nat)) (k : Int) (log : List Int) (j : Nat) (e : Thrown),
      j < n → create (k + j) = .throws e →
      ∃ (i : Nat) (e1 : Thrown), i ≤ j ∧ create (k + i) = .throws e1 ∧
        (fillPool create n pool k log).1 = .error e1 := by
  induction n with
  | zero => intro _ _ _ j _ hj; omega
  | succ n ih =>
    intro pool k log j e hj hthrows
    cases hc : create k with
    | throws e0 =>
      refine ⟨0, e0, Nat.zero_le j, by simpa using hc, ?_⟩
      rw [fillPool, hc]
    | returns p =>
      cases j with
      | zero =>
        simp only [Nat.cast_zero, add_zero] at hthrows
        rw [hc] at hthrows
        cases hthrows
      | succ j =>
        have e2 : k + ((j + 1 : Nat) : Int) = k + 1 + j := by push_cast; ring
        rw [e2] at hthrows
        obtain ⟨i, e1, hi, hci, hres⟩ :=
          ih (pool ++ [p]) (k + 1) (log ++ [k]) j e (Nat.lt_of_succ_lt_succ hj) hthrows
        refine ⟨i + 1, e1, Nat.succ_le_succ hi, ?_, ?_⟩
        · have e3 : k + ((i + 1 : Nat) : Int) = k + 1 + i := by push_cast; ring
          rw [e3]; exact hci
        · rw [fillPool, hc]
          exact hres

/-- C11, as amended: when the factory throws for one of the slot ids below `poolSize`
(slot `j`), the constructor fails as a whole: it is left by the exception that the factory
throws for the first such slot, and no pool is produced. -/
theorem new_fails_when_factory_throws (poolSize : Nat) (create : Int → CreateResult) (j : Nat)
    (e : Thrown) (hj : j < poolSize) (hthrows : create j = .throws e) :
    (∃ (i : Nat) (e1 : Thrown), i ≤ j ∧ create i = .throws e1 ∧
      (DBConnectionPool.new poolSize create).result = .error e1) ∧
      ∀ s, (DBConnectionPool.new poolSize create).result ≠ .ok s := by
  obtain ⟨i, e1, hi, hci, hres⟩ :=
    fillPool_throws create poolSize [] 0 [] j e hj (by simpa using hthrows)
  have hnew : (DBConnectionPool.new poolSize create).result = .error e1 := by
    simp [DBConnectionPool.new, hres, Except.map]
  refine ⟨⟨i, e1, hi, by simpa using hci, hnew⟩, ?_⟩
  intro s hs
  rw [hnew] at hs
  cases hs

/-- C11, as amended, at pool size 2 with a factory that throws for slot 1: the constructor
is left by the exception of the factory. -/
theorem new_fails_when_factory_throws_witness :
    ∃ (i : Nat) (e1 : Thrown), i ≤ 1 ∧ factoryThrowsLater i = .throws e1 ∧
      (DBConnectionPool.new 2 factoryThrowsLater).result = .error e1 :=
  (new_fails_when_factory_throws 2 factoryThrowsLater 1
    (.std (.runtime_error "connection refused"))
    (by decide) rfl).1

/-- C11, counterexample: with a Postgres factory whose new connection fails its first
probe, `create` returns `nullptr` for slot 0 and the constructor of a pool of size 1
succeeds: the pool it builds has a null pointer as its only idle entry. -/
theorem new_accepts_null_connection :
    postgresProbeFails 0 = .returns none ∧
      (DBConnectionPool.new 1 postgresProbeFails).result = .ok
        { _poolSize := 1, _connectionPool := [none], _connectionBorrowed := [] } ∧
      get_stats { _poolSize := 1, _connectionPool := [none], _connectionBorrowed := [] }
        = { _poolSize := 1, _borrowedSize := 0 } :=
  ⟨rfl, rfl, rfl⟩

/-! ## unborrow -/

/-- C12: `unborrow` called with a null pointer throws (`std::runtime_error`,
"sqlConnection is null") and leaves the pool, idle deque and borrowed set included, as it
was. -/
theorem unborrow_null_refused (s : DBConnectionPool) :
    (unborrow none s).result = .error (.runtime_error "sqlConnection is null") ∧
      (unborrow none s).pool = s ∧
      (unborrow none s).pool._connectionPool = s._connectionPool ∧
      (unborrow none s).pool._connectionBorrowed = s._connectionBorrowed :=
  ⟨rfl, rfl, rfl, rfl⟩

/-- C13: `unborrow` called with a non-null connection `c` succeeds; afterwards the idle
deque is the old one with `c` appended at the back, the borrowed set is the old one with
`c` erased (for a set, the other elements in their order), and `_poolSize` is unchanged.
The outcome is a function of the pool and the pointer alone: `unborrow` is given no
`World`, as the source calls neither the probe nor the factory. -/
theorem unborrow_effect (s : DBConnectionPool) (c : Nat) :
    unborrow (some c) s =
        { result := .ok ()
          pool :=
            { _poolSize := s._poolSize
              _connectionPool := s._connectionPool ++ [some c]
              _connectionBorrowed := s._connectionBorrowed.erase c } } ∧
      ((unborrow (some c) s).pool._connectionBorrowed).Sublist s._connectionBorrowed ∧
      (s._connectionBorrowed.Nodup →
        (unborrow (some c) s).pool._connectionBorrowed
          = s._connectionBorrowed.filter (fun x => x != c)) :=
  ⟨rfl, List.erase_sublist c _, fun h => h.erase_eq_filter c⟩

/-! ## Failures reported by borrow -/

/-- C17, as amended: when the front idle connection `c` is probed invalid and the factory
returns `nullptr` for its replacement, `borrow` fails and, in a well-formed pool, `c` is
afterwards neither in the idle deque nor in the borrowed set; the idle count plus the
borrowed count is the same as before the call. -/
theorem null_replacement_loses_connection (w : World) (s : DBConnectionPool) (c : Nat)
    (rest : List (Option Nat)) (hfront : s._connectionPool = some c :: rest)
    (hinvalid : w.connectionValid c = false)
    (hnull : w.create (w.getConnectionId c) = .returns none) :
    (borrow w s).result = .error (.std (.runtime_error "sqlConnection is null")) ∧
      (WellFormed s → some c ∉ (borrow w s).pool._connectionPool ∧
        c ∉ (borrow w s).pool._connectionBorrowed) ∧
      (get_stats (borrow w s).pool)._poolSize + (get_stats (borrow w s).pool)._borrowedSize
        = (get_stats s)._poolSize + (get_stats s)._borrowedSize := by
  have hb := borrow_front_invalid w s c rest hfront hinvalid
  rw [hnull] at hb
  rw [hb]
  refine ⟨rfl, ?_, ?_⟩
  · intro hwf
    have hcidle : some c ∈ s._connectionPool := by rw [hfront]; exact List.mem_cons_self _ _
    constructor
    · have hnd := hwf.idle_nodup
      simp only [idleConnections, hfront, List.filterMap_cons, id, List.nodup_cons,
        List.mem_filterMap] at hnd
      show some c ∉ rest ++ [none]
      simp only [List.mem_append, List.mem_singleton, not_or]
      exact ⟨fun hmem => hnd.1 ⟨some c, hmem, rfl⟩, by simp⟩
    · exact fun h => hwf.disjoint c h hcidle
  · simp [get_stats, hfront]

/-- C17, as amended, on the pool of size 1: connection 100 is in neither collection after
the failed borrow, and the counts add up to 1 as before. -/
theorem null_replacement_loses_connection_witness :
    some 100 ∉ (borrow brokenNull pool1).pool._connectionPool ∧
      100 ∉ (borrow brokenNull pool1).pool._connectionBorrowed ∧
      (get_stats (borrow brokenNull pool1).pool)._poolSize
        + (get_stats (borrow brokenNull pool1).pool)._borrowedSize = 1 :=
  have h := null_replacement_loses_connection brokenNull pool1 100 [] rfl rfl rfl
  have h2 := h.2.1 ⟨by decide, by decide, by decide, by decide⟩
  ⟨h2.1, h2.2, h.2.2⟩

/-- C17, counterexample: on the pool of size 1 whose connection 100 is probed invalid, with
a factory that returns `nullptr`, the failed `borrow` leaves one (null) entry in the idle
deque, so the idle count plus the borrowed count is 1 as before the call, not one less. -/
theorem null_replacement_keeps_count :
    pool1._connectionPool = [some 100] ∧ brokenNull.connectionValid 100 = false ∧
      brokenNull.create (brokenNull.getConnectionId 100) = .returns none ∧
      (borrow brokenNull pool1).result
        = .error (.std (.runtime_error "sqlConnection is null")) ∧
      (borrow brokenNull pool1).pool._connectionPool = [none] ∧
      (get_stats pool1)._poolSize + (get_stats pool1)._borrowedSize = 1 ∧
      (get_stats (borrow brokenNull pool1).pool)._poolSize
        + (get_stats (borrow brokenNull pool1).pool)._borrowedSize = 1 ∧
      ¬ ((get_stats (borrow brokenNull pool1).pool)._poolSize
          + (get_stats (borrow brokenNull pool1).pool)._borrowedSize + 1
        = (get_stats pool1)._poolSize + (get_stats pool1)._borrowedSize) :=
  ⟨rfl, rfl, rfl, rfl, rfl, rfl, rfl, by decide⟩

/-- C18: with an empty idle deque and an abandoned connection `a` in the borrowed set, when
the factory does not deliver a replacement for the first abandoned connection `it` (it
throws or returns `nullptr`), `borrow` fails after this one call of `create`, no other
connection is tried, and the pool is unchanged: `it` is still in the borrowed set, and a
later `borrow` that meets the same use counts calls `create` for the slot of `it` again.
The failure is `std::runtime_error` "exception", or the object the factory threw when that
is no `std::exception`. -/
theorem abandoned_replacement_failure (w : World) (s : DBConnectionPool) (a : Nat)
    (hidle : s._connectionPool = []) (ha : a ∈ s._connectionBorrowed)
    (hab : w.use_count a = 1) :
    ∃ it before after,
      s._connectionBorrowed = before ++ it :: after ∧ w.use_count it = 1 ∧
      (∀ x ∈ before, w.use_count x ≠ 1) ∧
      ((∀ r, w.create (w.getConnectionId it) ≠ .returns (some r)) →
        (∃ e, (borrow w s).result = .error e) ∧
          ((∀ tag, w.create (w.getConnectionId it) ≠ .throws (.other tag)) →
            (borrow w s).result = .error (.std (.runtime_error "exception"))) ∧
          (∀ tag, w.create (w.getConnectionId it) = .throws (.other tag) →
            (borrow w s).result = .error (.other tag)) ∧
          (borrow w s).created = [w.getConnectionId it] ∧
          (borrow w s).pool = s ∧ it ∈ (borrow w s).pool._connectionBorrowed ∧
          ∀ w2 : World, (∀ x, w2.use_count x = w.use_count x) →
            (borrow w2 (borrow w s).pool).created = [w2.getConnectionId it]) := by
  cases hfind : s._connectionBorrowed.find? (fun it => w.use_count it == 1) with
  | none =>
    rw [List.find?_eq_none] at hfind
    exact absurd (by simpa using hab) (hfind a ha)
  | some it =>
    obtain ⟨hit, before, after, hsplit, hbefore⟩ := List.find?_eq_some.mp hfind
    have hit1 : w.use_count it = 1 := by simpa using hit
    refine ⟨it, before, after, hsplit, hit1, fun x hx => by simpa using hbefore x hx, ?_⟩
    intro hfail
    have hb := borrow_abandoned w s it hidle hfind
    have hretry : ∀ w2 : World, (∀ x, w2.use_count x = w.use_count x) →
        (borrow w2 s).created = [w2.getConnectionId it] := by
      intro w2 hsame
      have hfind2 : s._connectionBorrowed.find? (fun it => w2.use_count it == 1) = some it := by
        have hfun : (fun it => w2.use_count it == 1) = (fun it => w.use_count it == 1) := by
          funext x; rw [hsame x]
        rw [hfun]; exact hfind
      rw [borrow_abandoned w2 s it hidle hfind2]
      split <;> rfl
    have hmem : it ∈ s._connectionBorrowed := find_mem w _ it hfind
    cases hc : w.create (w.getConnectionId it) with
    | returns p =>
      cases p with
      | some r => exact absurd hc (hfail r)
      | none =>
        rw [hc] at hb
        rw [hb]
        exact ⟨⟨_, rfl⟩, fun _ => rfl, fun tag h => (by cases h), rfl, rfl, hmem, hretry⟩
    | throws e0 =>
      rw [hc] at hb
      cases e0 with
      | std e1 =>
        rw [hb]
        exact ⟨⟨_, rfl⟩, fun _ => rfl, fun tag h => (by cases h), rfl, rfl, hmem, hretry⟩
      | other tag0 =>
        rw [hb]
        refine ⟨⟨_, rfl⟩, fun h => absurd rfl (h tag0), ?_, rfl, rfl, hmem, hretry⟩
        intro tag h
        injection h with h
        injection h with h
        subst h
        rfl

/-- C18, on a pool of size 2 with both connections abandoned and a factory that throws:
`borrow` fails after one call of `create` (slot 0), the pool is unchanged, and the next
`borrow` calls `create` for slot 0 again. -/
theorem abandoned_replacement_failure_witness :
    (borrow abandonedThrows pool2Borrowed).result
        = .error (.std (.runtime_error "exception")) ∧
      (borrow abandonedThrows pool2Borrowed).created = [0] ∧
      (borrow abandonedThrows pool2Borrowed).pool = pool2Borrowed ∧
      (borrow abandoned (borrow abandonedThrows pool2Borrowed).pool).created = [0] := by
  obtain ⟨it, before, after, hsplit, _, hbefore, hrest⟩ :=
    abandoned_replacement_failure abandonedThrows pool2Borrowed 100 rfl (by decide) rfl
  cases before with
  | cons b before => exact absurd rfl (hbefore b (List.mem_cons_self _ _))
  | nil =>
    have hsplit2 : [100, 101] = it :: after := hsplit
    injection hsplit2 with hit _
    subst hit
    obtain ⟨_, h1, _, h2, h3, _, h5⟩ := hrest (by intro r h; cases h)
    exact ⟨h1 (by intro tag h; cases h), h2, h3, h5 abandoned (fun _ => rfl)⟩

/-! ## The scoped transaction -/

theorem sorted_setInsert (x : Nat) (l : List Nat) (h : l.Sorted (· < ·)) :
    (setInsert x l).Sorted (· < ·) := by
  induction l with
  | nil => simp [setInsert]
  | cons y ys ih =>
    rw [List.sorted_cons] at h
    unfold setInsert
    split
    · next hxy =>
      rw [List.sorted_cons]
      refine ⟨?_, List.sorted_cons.mpr h⟩
      intro b hb
      rcases List.mem_cons.mp hb with rfl | hb
      · exact hxy
      · exact Nat.lt_trans hxy (h.1 b hb)
    · split
      · next hyx =>
        rw [List.sorted_cons]
        refine ⟨?_, ih h.2⟩
        intro b hb
        rcases (mem_setInsert b x ys).mp hb with rfl | hb
        · exact hyx
        · exact h.1 b hb
      · exact List.sorted_cons.mpr h

theorem sorted_setErase (x : Nat) (l : List Nat) (h : l.Sorted (· < ·)) :
    (setErase x l).Sorted (· < ·) :=
  List.Pairwise.sublist (List.erase_sublist x l) h

theorem sorted_borrow (w : World) (s : DBConnectionPool)
    (h : s._connectionBorrowed.Sorted (· < ·)) :
    (borrow w s).pool._connectionBorrowed.Sorted (· < ·) := by
  cases hidle : s._connectionPool with
  | nil =>
    cases hfind : s._connectionBorrowed.find? (fun it => w.use_count it == 1) with
    | none => rw [borrow_exhausted w s hidle hfind]; exact h
    | some it =>
      rw [borrow_abandoned w s it hidle hfind]
      cases w.create (w.getConnectionId it) with
      | throws e => cases e <;> exact h
      | returns p =>
        cases p with
        | none => exact h
        | some r => exact sorted_setInsert _ _ (sorted_setErase _ _ h)
  | cons x rest =>
    cases x with
    | none => rw [borrow_front_null w s rest hidle]; exact h
    | some c =>
      cases hv : w.connectionValid c with
      | true => rw [borrow_front_valid w s c rest hidle hv]; exact sorted_setInsert _ _ h
      | false =>
        rw [borrow_front_invalid w s c rest hidle hv]
        cases w.create (w.getConnectionId c) with
        | throws e =>
          cases e with
          | other tag => exact h
          | std e => cases e <;> exact h
        | returns p =>
          cases p with
          | none => exact h
          | some r => exact sorted_setInsert _ _ h

/-- C16: when `borrow` succeeds with connection `c` and opening the unit of work then
fails with `e`, the constructor of `PostgresConnTrans` calls `unborrow(c)` and is left by
`e`: afterwards `c` is at the back of the idle deque and (the borrowed set being a set) not
in the borrowed set, and the factory was called by `borrow` only. -/
theorem open_failure_returns_connection (w : World)
    (openTransaction : Nat → Bool → Except StdException Unit) (work : Bool)
    (s : DBConnectionPool) (c : Nat) (e : StdException)
    (hset : s._connectionBorrowed.Sorted (· < ·))
    (hborrow : (borrow w s).result = .ok c) (hopen : openTransaction c work = .error e) :
    (PostgresConnTrans.new w openTransaction work s).result = .error (.std e) ∧
      (PostgresConnTrans.new w openTransaction work s).actions = [.unborrow (some c)] ∧
      (PostgresConnTrans.new w openTransaction work s).pool._connectionPool
        = (borrow w s).pool._connectionPool ++ [some c] ∧
      c ∉ (PostgresConnTrans.new w openTransaction work s).pool._connectionBorrowed ∧
      (PostgresConnTrans.new w openTransaction work s).created = (borrow w s).created := by
  have hnew : PostgresConnTrans.new w openTransaction work s =
      { result := .error (.std e)
        pool := (unborrow (some c) (borrow w s).pool).pool
        created := (borrow w s).created
        actions := [.unborrow (some c)] } := by
    simp only [PostgresConnTrans.new, hborrow, hopen]
  rw [hnew]
  refine ⟨rfl, rfl, rfl, ?_, rfl⟩
  have hnd : (borrow w s).pool._connectionBorrowed.Nodup := (sorted_borrow w s hset).nodup
  show c ∉ (borrow w s).pool._connectionBorrowed.erase c
  rw [hnd.mem_erase_iff]
  exact fun h => h.1 rfl

/-- C16, on the pool of size 1: the unit of work cannot be opened on connection 100, which
is idle again afterwards; the factory was not called. -/
theorem open_failure_returns_connection_witness :
    (PostgresConnTrans.new healthy openFails true pool1).result
        = .error (.std (.runtime_error "cannot start transaction")) ∧
      (PostgresConnTrans.new healthy openFails true pool1).pool._connectionPool = [some 100] ∧
      100 ∉ (PostgresConnTrans.new healthy openFails true pool1).pool._connectionBorrowed ∧
      (PostgresConnTrans.new healthy openFails true pool1).created = [] :=
  have h := open_failure_returns_connection healthy openFails true pool1 100
    (.runtime_error "cannot start transaction") (by simp [pool1]) rfl rfl
  ⟨h.1, h.2.2.1, h.2.2.2.1, h.2.2.2.2⟩

/-! ## Conservation of capacity -/

end DBConnectionsPool
